import Mathlib

/-! librk4: one step of the Runge-Kutta 4 integrator

A shallow embedding of `rk4` (librk4.c) and of the declarations of librk4.h
that it uses.

* `rk4_float` is taken to be the rationals: every arithmetic operation of the
  C code is performed exactly.
* A pointer argument that may be `NULL` is an `Option`; a buffer is the list of
  its elements.  Reading a caller buffer past its end is outside the contract
  of the library; the embedding reads `0` there, and a write past the end is
  dropped.
* The vector field is a callback.  It receives the present contents of the
  buffer `xdot` it writes to and returns the new contents, so a callback that
  writes only some entries is expressible; everything else the callback can
  see or change (globals, the memory behind `data`) is a state of type `σ`.
* `malloc`, `calloc` and `free` act on a `Heap`: the addresses of the live
  blocks and an oracle that decides which acquisitions succeed.
* Every invocation of the callback is recorded, in order, in a call log.
-/

namespace Rk4

/-- The precision type `rk4_float`, with exact arithmetic. -/
abbrev rk4_float := ℚ

/-- Return values for the integration step (`enum rk4_errorcode`). -/
inductive rk4_errorcode where
  | RK4_SUCCESS
  | RK4_EMALLOC
  | RK4_NULLPTR
  | RK4_GENERIC
  deriving DecidableEq, Repr

open rk4_errorcode

/-- The callback type `rk4_ode`: `f(xdot, t, x, u, p, data)`.  The first
argument is the contents of `xdot` before the call, the first component of the
result its contents after the call. -/
abbrev rk4_ode (σ D : Type) :=
  List rk4_float → rk4_float → List rk4_float → Option (List rk4_float) →
    Option (List (List rk4_float)) → D → σ → List rk4_float × σ

/-- Integrator options (`struct rk4_opts`). -/
structure rk4_opts (σ D : Type) where
  h : rk4_float
  f_size : Nat
  f : rk4_ode σ D

/-- Order of the integrator (`#define RK4_ORDER 4`). -/
def RK4_ORDER : Nat := 4

/-- The local table `rk4_a` of `rk4`. -/
def rk4_a : List rk4_float := [0, 1/2, 1/2, 1]

/-- The local table `rk4_b` of `rk4`. -/
def rk4_b : List rk4_float := [1/6, 1/3, 1/3, 1/6]

/-- The local table `rk4_c` of `rk4`. -/
def rk4_c : List rk4_float := [0, 1/2, 1/2, 1]

/-! ## The allocator -/

/-- The allocator: the addresses of the live blocks, and the answers the
allocator will give to the coming acquisitions (`true`: the block is granted;
once the list is used up every acquisition is granted). -/
structure Heap where
  live : List Nat
  oracle : List Bool
  deriving DecidableEq, Repr

/-- An address that is not `NULL` (`0`) and not live. -/
def fresh (live : List Nat) : Nat := live.foldr max 0 + 1

/-- One acquisition (`malloc` or `calloc`): the address returned, `0` for
`NULL`, and the heap afterwards. -/
def malloc (hp : Heap) : Nat × Heap :=
  match hp.oracle with
  | [] => (fresh hp.live, { live := fresh hp.live :: hp.live, oracle := [] })
  | true :: rest => (fresh hp.live, { live := fresh hp.live :: hp.live, oracle := rest })
  | false :: rest => (0, { live := hp.live, oracle := rest })

/-- The call `free(a)`. -/
def free (a : Nat) (hp : Heap) : Heap :=
  if a = 0 then hp else { hp with live := hp.live.erase a }

/-! ## Invocations of the vector field -/

/-- One invocation of the callback as seen from outside: the index `l` of the
stage buffer `k[l]` handed over as `xdot`, and the other five arguments. -/
structure Call (D : Type) where
  stage : Nat
  t : rk4_float
  x : List rk4_float
  u : Option (List rk4_float)
  p : Option (List (List rk4_float))
  data : D
  deriving DecidableEq, Repr

/-- The state of the stage computation: the four stage buffers `k[0..3]`, the
scratch vector `z`, the state of the callback, and the call log. -/
structure Stages (σ D : Type) where
  k : List (List rk4_float)
  z : List rk4_float
  env : σ
  calls : List (Call D)

/-- The statement `o->f(k[l], tl, xa, u, p, data)`. -/
def invoke {σ D : Type} (o : rk4_opts σ D) (l : Nat) (tl : rk4_float) (xa : List rk4_float)
    (u : Option (List rk4_float)) (p : Option (List (List rk4_float))) (data : D)
    (s : Stages σ D) : Stages σ D :=
  let r := o.f (s.k.getD l []) tl xa u p data s.env
  let c : Call D := { stage := l, t := tl, x := xa, u := u, p := p, data := data }
  { s with k := s.k.set l r.1, env := r.2, calls := s.calls ++ [c] }

/-- The first inner loop of stage `l`:
`for (i = 0; i < o->f_size; i++) z[i] = x[i] + (o->h) * rk4_a[l - 1] * k[l - 1][i];` -/
def rk4_z_loop {σ D : Type} (o : rk4_opts σ D) (l : Nat) (x : List rk4_float)
    (s : Stages σ D) : Stages σ D :=
  (List.range o.f_size).foldl
    (fun s i =>
      let zi := x.getD i 0 + o.h * rk4_a.getD (l - 1) 0 * (s.k.getD (l - 1) []).getD i 0
      { s with z := s.z.set i zi }) s

/-- The second inner loop of stage `l`:
`for (i = 0; i < o->f_size; i++) o->f(k[l], t + rk4_c[l] * (o->h), z, u, p, data);` -/
def rk4_f_loop {σ D : Type} (o : rk4_opts σ D) (l : Nat) (t : rk4_float)
    (u : Option (List rk4_float)) (p : Option (List (List rk4_float))) (data : D)
    (s : Stages σ D) : Stages σ D :=
  (List.range o.f_size).foldl
    (fun s _ => invoke o l (t + rk4_c.getD l 0 * o.h) s.z u p data s) s

/-- The stage computation of `rk4` (librk4.c, lines 58-67), started on stage
buffers and a scratch vector fresh from `calloc`. -/
def rk4_stages {σ D : Type} (o : rk4_opts σ D) (t : rk4_float) (x : List rk4_float)
    (u : Option (List rk4_float)) (p : Option (List (List rk4_float))) (data : D)
    (env : σ) : Stages σ D :=
  let s0 : Stages σ D :=
    { k := List.replicate RK4_ORDER (List.replicate o.f_size 0),
      z := List.replicate o.f_size 0, env := env, calls := [] }
  let s1 := invoke o 0 t x u p data s0
  (List.range' 1 (RK4_ORDER - 1)).foldl
    (fun s l => rk4_f_loop o l t u p data (rk4_z_loop o l x s)) s1

/-- The accumulator `df` of the output loop for the index `i`:
`df = 0; for (l = 0; l < RK4_ORDER; l++) df += rk4_b[l] * k[l][i];` -/
def rk4_df (k : List (List rk4_float)) (i : Nat) : rk4_float :=
  (List.range RK4_ORDER).foldl (fun df l => df + rk4_b.getD l 0 * (k.getD l []).getD i 0) 0

/-- The output loop of `rk4` (librk4.c, lines 69-74), for `xp` and `x` two
distinct buffers. -/
def rk4_output {σ D : Type} (o : rk4_opts σ D) (x : List rk4_float)
    (k : List (List rk4_float)) (xp : List rk4_float) : List rk4_float :=
  (List.range o.f_size).foldl (fun xp i => xp.set i (x.getD i 0 + o.h * rk4_df k i)) xp

/-- The loop that acquires the stage buffers (librk4.c, lines 40-46), run over
the indices `ls` still to come; `ktab` is the address of the table `k` and `ks`
the addresses stored in it so far.  `Except.error` is the early
`return RK4_EMALLOC`, with the heap at that point. -/
def rk4_alloc_k (ktab : Nat) : List Nat → List Nat → Heap → Except Heap (List Nat × Heap)
  | [], ks, hp => .ok (ks, hp)
  | _ :: ls, ks, hp =>
    let r := malloc hp
    if r.1 = 0 then .error (free ktab r.2)
    else rk4_alloc_k ktab ls (ks ++ [r.1]) r.2

/-- The loop `for (l = 0; l < RK4_ORDER; l++) free(k[l]);`. -/
def rk4_free_k (ks : List Nat) (hp : Heap) : Heap :=
  ks.foldl (fun hp a => free a hp) hp

/-- What a call of `rk4` leaves behind: the value returned, the buffer `xp`,
the state of the callback, the invocations of the callback, and the heap. -/
structure Outcome (σ D : Type) where
  status : rk4_errorcode
  xp : Option (List rk4_float)
  env : σ
  calls : List (Call D)
  heap : Heap

/-- The function `rk4` of librk4.c, for `xp` and `x` two distinct buffers. -/
def rk4 {σ D : Type} (o : Option (rk4_opts σ D)) (xp : Option (List rk4_float)) (t : rk4_float)
    (x : Option (List rk4_float)) (u : Option (List rk4_float))
    (p : Option (List (List rk4_float))) (data : D) (env : σ) (hp : Heap) : Outcome σ D :=
  match o with
  | none => ⟨RK4_NULLPTR, xp, env, [], hp⟩
  | some opts =>
  match xp with
  | none => ⟨RK4_NULLPTR, none, env, [], hp⟩
  | some xpb =>
  match x with
  | none => ⟨RK4_NULLPTR, some xpb, env, [], hp⟩
  | some xb =>
    let rk := malloc hp
    if rk.1 = 0 then ⟨RK4_EMALLOC, some xpb, env, [], rk.2⟩
    else
      match rk4_alloc_k rk.1 (List.range RK4_ORDER) [] rk.2 with
      | .error hp1 => ⟨RK4_EMALLOC, some xpb, env, [], hp1⟩
      | .ok (ks, hp1) =>
        let rz := malloc hp1
        if rz.1 = 0 then
          ⟨RK4_EMALLOC, some xpb, env, [], free rk.1 (rk4_free_k ks rz.2)⟩
        else
          let s := rk4_stages opts t xb u p data env
          ⟨RK4_SUCCESS, some (rk4_output opts xb s.k xpb), s.env, s.calls,
            free rz.1 (free rk.1 (rk4_free_k ks rz.2))⟩

/-! ## Vector fields used as test inputs -/

/-- The scalar linear field `xdot[0] = lambda * x[0]`. -/
def linear_ode (lambda : rk4_float) : rk4_ode Unit Unit :=
  fun xdot _ x _ _ _ env => (xdot.set 0 (lambda * x.getD 0 0), env)

/-- The field of test_ode_3.c: `xdot[i] = (1 - 2 * t) * (x[i] * x[i])` for
`i = 0, 1, 2`; it reads neither `u` nor `p`. -/
def riccati_ode : rk4_ode Unit Unit :=
  fun xdot t x _ _ _ env =>
    ((List.range 3).foldl (fun xd i => xd.set i ((1 - 2 * t) * (x.getD i 0 * x.getD i 0))) xdot,
      env)

/-- The field of test_ode_2.c: `xdot[0] = x[1]`,
`xdot[1] = -p[0][0] * x[0] - p[0][1] * x[1] + p[1][0] * u[0]`. -/
def oscillator_ode : rk4_ode Unit Unit :=
  fun xdot _ x u p _ env =>
    let p00 := ((p.getD []).getD 0 []).getD 0 0
    let p01 := ((p.getD []).getD 0 []).getD 1 0
    let p10 := ((p.getD []).getD 1 []).getD 0 0
    let u0 := (u.getD []).getD 0 0
    ((xdot.set 0 (x.getD 1 0)).set 1 (-p00 * x.getD 0 0 - p01 * x.getD 1 0 + p10 * u0), env)

/-! ## `rk4` with `xp` and `x` one buffer -/

/-- The output loop of `rk4` (librk4.c, lines 69-74) when `xp` and `x` point
to one and the same buffer: the read of `x[i]` sees the buffer as the loop has
left it so far, and the write to `xp[i]` changes that buffer. -/
def rk4_output_inplace {σ D : Type} (o : rk4_opts σ D) (k : List (List rk4_float))
    (buf : List rk4_float) : List rk4_float :=
  (List.range o.f_size).foldl (fun buf i => buf.set i (buf.getD i 0 + o.h * rk4_df k i)) buf

/-- The function `rk4` of librk4.c called with the same pointer `b` for `xp`
and for `x`.  The field `xp` of the outcome is the buffer after the call. -/
def rk4_inplace {σ D : Type} (o : Option (rk4_opts σ D)) (b : Option (List rk4_float))
    (t : rk4_float) (u : Option (List rk4_float)) (p : Option (List (List rk4_float)))
    (data : D) (env : σ) (hp : Heap) : Outcome σ D :=
  match o with
  | none => ⟨RK4_NULLPTR, b, env, [], hp⟩
  | some opts =>
  match b with
  | none => ⟨RK4_NULLPTR, none, env, [], hp⟩
  | some buf =>
    let rk := malloc hp
    if rk.1 = 0 then ⟨RK4_EMALLOC, some buf, env, [], rk.2⟩
    else
      match rk4_alloc_k rk.1 (List.range RK4_ORDER) [] rk.2 with
      | .error hp1 => ⟨RK4_EMALLOC, some buf, env, [], hp1⟩
      | .ok (ks, hp1) =>
        let rz := malloc hp1
        if rz.1 = 0 then
          ⟨RK4_EMALLOC, some buf, env, [], free rk.1 (rk4_free_k ks rz.2)⟩
        else
          let s := rk4_stages opts t buf u p data env
          ⟨RK4_SUCCESS, some (rk4_output_inplace opts s.k buf), s.env, s.calls,
            free rz.1 (free rk.1 (rk4_free_k ks rz.2))⟩

/-! ## Reference computations -/

/-- The stage computation with the vector field invoked once for each stage:
`rk4_stages` with the loop around the invocation of the stages 2, 3, 4
replaced by a single invocation with the same arguments. -/
def rk4_stages_once {σ D : Type} (o : rk4_opts σ D) (t : rk4_float) (x : List rk4_float)
    (u : Option (List rk4_float)) (p : Option (List (List rk4_float))) (data : D)
    (env : σ) : Stages σ D :=
  let s0 : Stages σ D :=
    { k := List.replicate RK4_ORDER (List.replicate o.f_size 0),
      z := List.replicate o.f_size 0, env := env, calls := [] }
  let s1 := invoke o 0 t x u p data s0
  (List.range' 1 (RK4_ORDER - 1)).foldl
    (fun s l =>
      let sz := rk4_z_loop o l x s
      invoke o l (t + rk4_c.getD l 0 * o.h) sz.z u p data sz) s1

/-- The variant of `rk4` that invokes the vector field once for each stage:
`rk4` with `rk4_stages_once` in the place of `rk4_stages`. -/
def rk4_once {σ D : Type} (o : Option (rk4_opts σ D)) (xp : Option (List rk4_float))
    (t : rk4_float) (x : Option (List rk4_float)) (u : Option (List rk4_float))
    (p : Option (List (List rk4_float))) (data : D) (env : σ) (hp : Heap) : Outcome σ D :=
  match o with
  | none => ⟨RK4_NULLPTR, xp, env, [], hp⟩
  | some opts =>
  match xp with
  | none => ⟨RK4_NULLPTR, none, env, [], hp⟩
  | some xpb =>
  match x with
  | none => ⟨RK4_NULLPTR, some xpb, env, [], hp⟩
  | some xb =>
    let rk := malloc hp
    if rk.1 = 0 then ⟨RK4_EMALLOC, some xpb, env, [], rk.2⟩
    else
      match rk4_alloc_k rk.1 (List.range RK4_ORDER) [] rk.2 with
      | .error hp1 => ⟨RK4_EMALLOC, some xpb, env, [], hp1⟩
      | .ok (ks, hp1) =>
        let rz := malloc hp1
        if rz.1 = 0 then
          ⟨RK4_EMALLOC, some xpb, env, [], free rk.1 (rk4_free_k ks rz.2)⟩
        else
          let s := rk4_stages_once opts t xb u p data env
          ⟨RK4_SUCCESS, some (rk4_output opts xb s.k xpb), s.env, s.calls,
            free rz.1 (free rk.1 (rk4_free_k ks rz.2))⟩

/-- The classical Runge-Kutta 4 step of size `h` in dimension `n` for a field
`F t x`, by the tableau documented in librk4.h (lines 33-54):
`k1 = F(t, x)`, `k2 = F(t + h/2, x + (h/2) k1)`, `k3 = F(t + h/2, x + (h/2) k2)`,
`k4 = F(t + h, x + h k3)`, and the result `x + h (k1/6 + k2/3 + k3/3 + k4/6)`. -/
def rk4_reference_step (h : rk4_float) (n : Nat) (F : rk4_float → List rk4_float → List rk4_float)
    (t : rk4_float) (x : List rk4_float) : List rk4_float :=
  let k1 := F t x
  let k2 := F (t + h / 2) ((List.range n).map (fun i => x.getD i 0 + h / 2 * k1.getD i 0))
  let k3 := F (t + h / 2) ((List.range n).map (fun i => x.getD i 0 + h / 2 * k2.getD i 0))
  let k4 := F (t + h) ((List.range n).map (fun i => x.getD i 0 + h * k3.getD i 0))
  (List.range n).map (fun i => x.getD i 0 +
    h * (k1.getD i 0 / 6 + k2.getD i 0 / 3 + k3.getD i 0 / 3 + k4.getD i 0 / 6))

/-! ## The allocator: elementary facts -/

theorem fresh_ne_zero (l : List Nat) : fresh l ≠ 0 := by
  simp [fresh]

theorem getD_tail_oracle (l : List Bool) (j : Nat) :
    l.tail.getD j true = l.getD (j + 1) true := by
  cases l <;> simp

theorem malloc_fst_eq_zero (hp : Heap) :
    (malloc hp).1 = 0 ↔ hp.oracle.getD 0 true = false := by
  rcases hp with ⟨live, oracle⟩
  rcases oracle with _ | ⟨b, rest⟩
  · simp [malloc, fresh]
  · cases b <;> simp [malloc, fresh]

theorem malloc_oracle (hp : Heap) : (malloc hp).2.oracle = hp.oracle.tail := by
  rcases hp with ⟨live, oracle⟩
  rcases oracle with _ | ⟨b, rest⟩
  · simp [malloc]
  · cases b <;> simp [malloc]

theorem all_granted_succ (l : List Bool) (n : Nat) :
    (∀ j, j < n + 1 → l.getD j true = true) ↔
      l.getD 0 true = true ∧ ∀ j, j < n → l.tail.getD j true = true := by
  constructor
  · intro h
    refine ⟨h 0 (Nat.succ_pos n), fun j hj => ?_⟩
    rw [getD_tail_oracle]
    exact h (j + 1) (Nat.succ_lt_succ hj)
  · rintro ⟨h0, h⟩ j hj
    cases j with
    | zero => exact h0
    | succ j =>
      rw [← getD_tail_oracle]
      exact h j (Nat.lt_of_succ_lt_succ hj)

/-- The loop that acquires the stage buffers runs to its end exactly when the
allocator grants each of its acquisitions. -/
theorem rk4_alloc_k_ok_iff (ktab : Nat) (ls ks : List Nat) (hp : Heap) :
    (∃ r, rk4_alloc_k ktab ls ks hp = .ok r) ↔
      ∀ j, j < ls.length → hp.oracle.getD j true = true := by
  induction ls generalizing ks hp with
  | nil => simp [rk4_alloc_k]
  | cons l ls ih =>
    rw [List.length_cons, all_granted_succ]
    by_cases h0 : (malloc hp).1 = 0
    · have hf := (malloc_fst_eq_zero hp).1 h0
      constructor
      · rintro ⟨r, hr⟩
        simp [rk4_alloc_k, h0] at hr
      · rintro ⟨h1, -⟩
        rw [hf] at h1
        exact absurd h1 (by decide)
    · have hf : hp.oracle.getD 0 true = true := by
        cases hb : hp.oracle.getD 0 true
        · exact absurd ((malloc_fst_eq_zero hp).2 hb) h0
        · rfl
      simp only [rk4_alloc_k, h0, if_false]
      rw [ih, malloc_oracle]
      exact ⟨fun h => ⟨hf, h⟩, fun h => h.2⟩

/-- After the loop that acquires the stage buffers has run to its end, the
oracle has been consulted once for each buffer. -/
theorem rk4_alloc_k_oracle (ktab : Nat) (ls ks : List Nat) (hp : Heap) (r : List Nat × Heap)
    (h : rk4_alloc_k ktab ls ks hp = .ok r) : r.2.oracle = hp.oracle.drop ls.length := by
  induction ls generalizing ks hp with
  | nil =>
    simp only [rk4_alloc_k, Except.ok.injEq] at h
    simp [← h]
  | cons l ls ih =>
    by_cases h0 : (malloc hp).1 = 0
    · simp [rk4_alloc_k, h0] at h
    · simp only [rk4_alloc_k, h0, if_false] at h
      rw [ih _ _ h, malloc_oracle]
      simp

/-! ## The value returned by `rk4` -/

theorem getD_drop_oracle (l : List Bool) (n : Nat) :
    (l.drop n).getD 0 true = l.getD n true := by
  simp [List.getD_eq_getElem?_getD, List.getElem?_drop]

/-- With the three mandatory pointers present, `rk4` succeeds exactly when the
allocator grants the six acquisitions: the stage table, the four stage
buffers and the scratch vector. -/
theorem rk4_status_success_iff {σ D : Type} (o : rk4_opts σ D) (xpb : List rk4_float)
    (t : rk4_float) (xb : List rk4_float) (u : Option (List rk4_float))
    (p : Option (List (List rk4_float))) (data : D) (env : σ) (hp : Heap) :
    (rk4 (some o) (some xpb) t (some xb) u p data env hp).status = RK4_SUCCESS ↔
      ∀ j, j < RK4_ORDER + 2 → hp.oracle.getD j true = true := by
  have hlen : (List.range RK4_ORDER).length = 4 := by simp [RK4_ORDER]
  have hsplit : (∀ j, j < RK4_ORDER + 2 → hp.oracle.getD j true = true) ↔
      hp.oracle.getD 0 true = true ∧ (∀ j, j < 4 → hp.oracle.tail.getD j true = true) ∧
        hp.oracle.tail.getD 4 true = true := by
    have h6 : RK4_ORDER + 2 = 5 + 1 := by simp [RK4_ORDER]
    rw [h6, all_granted_succ, Nat.forall_lt_succ]
  rw [hsplit]
  unfold rk4
  simp only
  by_cases h0 : (malloc hp).1 = 0
  · have hf := (malloc_fst_eq_zero hp).1 h0
    simp only [h0, if_true]
    constructor
    · intro h; cases h
    · rintro ⟨h1, -⟩
      rw [hf] at h1
      exact absurd h1 (by decide)
  · have hf : hp.oracle.getD 0 true = true := by
      cases hb : hp.oracle.getD 0 true
      · exact absurd ((malloc_fst_eq_zero hp).2 hb) h0
      · rfl
    simp only [h0, if_false]
    have hk := rk4_alloc_k_ok_iff (malloc hp).1 (List.range RK4_ORDER) [] (malloc hp).2
    rw [hlen, malloc_oracle] at hk
    cases hr : rk4_alloc_k (malloc hp).1 (List.range RK4_ORDER) [] (malloc hp).2 with
    | error hp1 =>
      simp only
      constructor
      · intro h; cases h
      · rintro ⟨-, h4, -⟩
        obtain ⟨r, hr2⟩ := hk.2 h4
        rw [hr] at hr2
        cases hr2
    | ok r =>
      have h4 : ∀ j, j < 4 → hp.oracle.tail.getD j true = true := hk.1 ⟨r, hr⟩
      have hor := rk4_alloc_k_oracle _ _ _ _ r hr
      rw [hlen, malloc_oracle] at hor
      have hz := malloc_fst_eq_zero r.2
      rw [hor, getD_drop_oracle] at hz
      obtain ⟨ks, hp1⟩ := r
      simp only at hz ⊢
      by_cases hz0 : (malloc hp1).1 = 0
      · simp only [hz0, if_true]
        constructor
        · intro h; cases h
        · rintro ⟨-, -, h5⟩
          rw [hz.1 hz0] at h5
          exact absurd h5 (by decide)
      · simp only [hz0, if_false, true_iff]
        refine ⟨hf, h4, ?_⟩
        cases hb : hp.oracle.tail.getD 4 true
        · exact absurd (hz.2 hb) hz0
        · rfl

/-- With the three mandatory pointers present, `rk4` returns `RK4_SUCCESS` or
`RK4_EMALLOC`. -/
theorem rk4_status_nonnull {σ D : Type} (o : rk4_opts σ D) (xpb : List rk4_float)
    (t : rk4_float) (xb : List rk4_float) (u : Option (List rk4_float))
    (p : Option (List (List rk4_float))) (data : D) (env : σ) (hp : Heap) :
    (rk4 (some o) (some xpb) t (some xb) u p data env hp).status = RK4_SUCCESS ∨
      (rk4 (some o) (some xpb) t (some xb) u p data env hp).status = RK4_EMALLOC := by
  unfold rk4
  simp only
  split
  · exact Or.inr rfl
  · split
    · exact Or.inr rfl
    · split
      · exact Or.inr rfl
      · exact Or.inl rfl

/-- With a mandatory pointer absent, `rk4` returns at once: `RK4_NULLPTR`, and
nothing has changed. -/
theorem rk4_null {σ D : Type} (o : Option (rk4_opts σ D)) (xp : Option (List rk4_float))
    (t : rk4_float) (x : Option (List rk4_float)) (u : Option (List rk4_float))
    (p : Option (List (List rk4_float))) (data : D) (env : σ) (hp : Heap)
    (h : o = none ∨ xp = none ∨ x = none) :
    rk4 o xp t x u p data env hp = ⟨RK4_NULLPTR, xp, env, [], hp⟩ := by
  cases o with
  | none => rfl
  | some o =>
    cases xp with
    | none => rfl
    | some xpb =>
      cases x with
      | none => rfl
      | some xb => simp at h

/-- A call of `rk4` that does not succeed has not invoked the vector field and
has left `xp` and the state of the callback as they were. -/
theorem rk4_failure_frame {σ D : Type} (o : Option (rk4_opts σ D))
    (xp : Option (List rk4_float)) (t : rk4_float) (x : Option (List rk4_float))
    (u : Option (List rk4_float)) (p : Option (List (List rk4_float))) (data : D) (env : σ)
    (hp : Heap) (h : (rk4 o xp t x u p data env hp).status ≠ RK4_SUCCESS) :
    (rk4 o xp t x u p data env hp).calls = [] ∧ (rk4 o xp t x u p data env hp).xp = xp ∧
      (rk4 o xp t x u p data env hp).env = env := by
  revert h
  unfold rk4
  split
  · intro _; exact ⟨rfl, rfl, rfl⟩
  · split
    · intro _; exact ⟨rfl, rfl, rfl⟩
    · split
      · intro _; exact ⟨rfl, rfl, rfl⟩
      · simp only
        split
        · intro _; exact ⟨rfl, rfl, rfl⟩
        · split
          · intro _; exact ⟨rfl, rfl, rfl⟩
          · split
            · intro _; exact ⟨rfl, rfl, rfl⟩
            · intro h; exact absurd rfl h

/-! ## The stage computation -/

/-- The loop that fills the scratch vector touches nothing but the scratch
vector. -/
theorem rk4_z_loop_frame {σ D : Type} (o : rk4_opts σ D) (l : Nat) (x : List rk4_float)
    (s : Stages σ D) :
    (rk4_z_loop o l x s).calls = s.calls ∧ (rk4_z_loop o l x s).k = s.k ∧
      (rk4_z_loop o l x s).env = s.env := by
  unfold rk4_z_loop
  generalize List.range o.f_size = xs
  induction xs generalizing s with
  | nil => exact ⟨rfl, rfl, rfl⟩
  | cons i xs ih =>
    rw [List.foldl_cons]
    exact ih _

/-- The loop that evaluates stage `l` leaves the scratch vector alone and
invokes the vector field `o.f_size` times, each time with the same
arguments. -/
theorem rk4_f_loop_calls {σ D : Type} (o : rk4_opts σ D) (l : Nat) (t : rk4_float)
    (u : Option (List rk4_float)) (p : Option (List (List rk4_float))) (data : D)
    (s : Stages σ D) :
    (rk4_f_loop o l t u p data s).z = s.z ∧
      (rk4_f_loop o l t u p data s).calls = s.calls ++ List.replicate o.f_size
        { stage := l, t := t + rk4_c.getD l 0 * o.h, x := s.z, u := u, p := p, data := data } := by
  unfold rk4_f_loop
  have key : ∀ (xs : List Nat) (s : Stages σ D),
      (xs.foldl (fun s _ => invoke o l (t + rk4_c.getD l 0 * o.h) s.z u p data s) s).z = s.z ∧
      (xs.foldl (fun s _ => invoke o l (t + rk4_c.getD l 0 * o.h) s.z u p data s) s).calls =
        s.calls ++ List.replicate xs.length
          { stage := l, t := t + rk4_c.getD l 0 * o.h, x := s.z, u := u, p := p,
            data := data } := by
    intro xs
    induction xs with
    | nil => intro s; simp
    | cons i xs ih =>
      intro s
      rw [List.foldl_cons]
      obtain ⟨hz, hc⟩ := ih (invoke o l (t + rk4_c.getD l 0 * o.h) s.z u p data s)
      refine ⟨hz.trans rfl, ?_⟩
      rw [hc]
      simp [invoke, List.replicate_succ]
  simpa using key (List.range o.f_size) s

/-- The call log of the stage computation: one invocation for stage 1 at time
`t` on `x`, then `o.f_size` invocations for each of the stages 2, 3, 4, at the
times `t + h/2`, `t + h/2`, `t + h`, each stage on its own scratch state. -/
theorem rk4_stages_calls {σ D : Type} (o : rk4_opts σ D) (t : rk4_float) (x : List rk4_float)
    (u : Option (List rk4_float)) (p : Option (List (List rk4_float))) (data : D) (env : σ) :
    ∃ z1 z2 z3 : List rk4_float, (rk4_stages o t x u p data env).calls =
      { stage := 0, t := t, x := x, u := u, p := p, data := data } ::
        (List.replicate o.f_size
            { stage := 1, t := t + o.h / 2, x := z1, u := u, p := p, data := data } ++
          (List.replicate o.f_size
              { stage := 2, t := t + o.h / 2, x := z2, u := u, p := p, data := data } ++
            List.replicate o.f_size
              { stage := 3, t := t + o.h, x := z3, u := u, p := p, data := data })) := by
  have hr : List.range' 1 (RK4_ORDER - 1) = [1, 2, 3] := by decide
  have hc1 : t + rk4_c.getD 1 0 * o.h = t + o.h / 2 := by simp [rk4_c]; ring
  have hc2 : t + rk4_c.getD 2 0 * o.h = t + o.h / 2 := by simp [rk4_c]; ring
  have hc3 : t + rk4_c.getD 3 0 * o.h = t + o.h := by simp [rk4_c]
  unfold rk4_stages
  simp only [hr, List.foldl_cons, List.foldl_nil]
  generalize hs1 : invoke o 0 t x u p data
    { k := List.replicate RK4_ORDER (List.replicate o.f_size 0),
      z := List.replicate o.f_size 0, env := env, calls := [] } = s1
  have h1 : s1.calls = [{ stage := 0, t := t, x := x, u := u, p := p, data := data }] := by
    rw [← hs1]; simp [invoke]
  refine ⟨(rk4_z_loop o 1 x s1).z,
    (rk4_z_loop o 2 x (rk4_f_loop o 1 t u p data (rk4_z_loop o 1 x s1))).z,
    (rk4_z_loop o 3 x (rk4_f_loop o 2 t u p data
      (rk4_z_loop o 2 x (rk4_f_loop o 1 t u p data (rk4_z_loop o 1 x s1))))).z, ?_⟩
  rw [(rk4_f_loop_calls o 3 t u p data _).2, (rk4_z_loop_frame o 3 x _).1,
    (rk4_f_loop_calls o 2 t u p data _).2, (rk4_z_loop_frame o 2 x _).1,
    (rk4_f_loop_calls o 1 t u p data _).2, (rk4_z_loop_frame o 1 x _).1, h1, hc1, hc2, hc3]
  simp only [List.nil_append, List.cons_append, List.append_assoc]

/-! ## The output loop -/

/-- A loop `for (i = 0; i < n; i++) xp[i] = g(i);` sets the entries below `n`
and no other. -/
theorem set_loop_getElem? (g : Nat → rk4_float) (n : Nat) (xp : List rk4_float) (i : Nat) :
    ((List.range n).foldl (fun xp i => xp.set i (g i)) xp)[i]? =
      if i < n ∧ i < xp.length then some (g i) else xp[i]? := by
  induction n with
  | zero => simp
  | succ n ih =>
    have hlen : ∀ m : Nat, ((List.range m).foldl (fun xp i => xp.set i (g i)) xp).length
        = xp.length := by
      intro m
      induction m with
      | zero => simp
      | succ m ihm => rw [List.range_succ, List.foldl_append]; simpa using ihm
    rw [List.range_succ, List.foldl_append, List.foldl_cons, List.foldl_nil,
      List.getElem?_set, ih, hlen]
    by_cases hin : n = i
    · subst hin
      by_cases hl : n < xp.length
      · simp [hl]
      · simp [hl]
        omega
    · have h1 : (i < n + 1 ∧ i < xp.length) ↔ (i < n ∧ i < xp.length) := by omega
      simp [hin, h1]

/-- The accumulator of the output loop in closed form. -/
theorem rk4_df_eq (k : List (List rk4_float)) (i : Nat) :
    rk4_df k i = (k.getD 0 []).getD i 0 / 6 + (k.getD 1 []).getD i 0 / 3 +
      (k.getD 2 []).getD i 0 / 3 + (k.getD 3 []).getD i 0 / 6 := by
  simp only [rk4_df, RK4_ORDER, List.range_succ, List.range_zero, List.nil_append,
    List.cons_append, List.foldl_cons, List.foldl_nil, rk4_b]
  simp
  ring

/-! ## The outcome of a successful call -/

/-- A successful call leaves in `xp` the result of the output loop run on the
stage buffers of the stage computation, and has made the invocations of the
stage computation. -/
theorem rk4_success_outcome {σ D : Type} (o : rk4_opts σ D) (xpb : List rk4_float)
    (t : rk4_float) (xb : List rk4_float) (u : Option (List rk4_float))
    (p : Option (List (List rk4_float))) (data : D) (env : σ) (hp : Heap)
    (hok : (rk4 (some o) (some xpb) t (some xb) u p data env hp).status = RK4_SUCCESS) :
    (rk4 (some o) (some xpb) t (some xb) u p data env hp).xp =
        some (rk4_output o xb (rk4_stages o t xb u p data env).k xpb) ∧
      (rk4 (some o) (some xpb) t (some xb) u p data env hp).calls =
        (rk4_stages o t xb u p data env).calls ∧
      (rk4 (some o) (some xpb) t (some xb) u p data env hp).env =
        (rk4_stages o t xb u p data env).env := by
  revert hok
  unfold rk4
  simp only
  split
  · intro h; cases h
  · split
    · intro h; cases h
    · split
      · intro h; cases h
      · intro _; exact ⟨rfl, rfl, rfl⟩

/-- The value returned by `rk4` is decided by which mandatory pointers are
present and by the answers of the allocator. -/
theorem rk4_status_eq {σ D : Type} (o : Option (rk4_opts σ D)) (xp : Option (List rk4_float))
    (t : rk4_float) (x : Option (List rk4_float)) (u : Option (List rk4_float))
    (p : Option (List (List rk4_float))) (data : D) (env : σ) (hp : Heap) :
    (rk4 o xp t x u p data env hp).status =
      if o.isNone ∨ xp.isNone ∨ x.isNone then RK4_NULLPTR
      else if ∀ j, j < RK4_ORDER + 2 → hp.oracle.getD j true = true then RK4_SUCCESS
      else RK4_EMALLOC := by
  have hiff : (o.isNone ∨ xp.isNone ∨ x.isNone) ↔ (o = none ∨ xp = none ∨ x = none) := by
    simp [Option.isNone_iff_eq_none]
  by_cases hn : o = none ∨ xp = none ∨ x = none
  · rw [rk4_null o xp t x u p data env hp hn, if_pos (hiff.2 hn)]
  · rw [if_neg (mt hiff.1 hn)]
    obtain ⟨opts, rfl⟩ : ∃ opts, o = some opts := by
      cases o with
      | none => exact absurd (Or.inl rfl) hn
      | some opts => exact ⟨opts, rfl⟩
    obtain ⟨xpb, rfl⟩ : ∃ xpb, xp = some xpb := by
      cases xp with
      | none => exact absurd (Or.inr (Or.inl rfl)) hn
      | some xpb => exact ⟨xpb, rfl⟩
    obtain ⟨xb, rfl⟩ : ∃ xb, x = some xb := by
      cases x with
      | none => exact absurd (Or.inr (Or.inr rfl)) hn
      | some xb => exact ⟨xb, rfl⟩
    by_cases hg : ∀ j, j < RK4_ORDER + 2 → hp.oracle.getD j true = true
    · rw [if_pos hg]
      exact (rk4_status_success_iff opts xpb t xb u p data env hp).2 hg
    · rw [if_neg hg]
      rcases rk4_status_nonnull opts xpb t xb u p data env hp with h | h
      · exact absurd ((rk4_status_success_iff opts xpb t xb u p data env hp).1 h) hg
      · exact h

/-! ## Vector fields that ignore `u` and `p` -/

/-- C1, evaluated on the code.  The scalar field `xdot[0] = x[0]` with `h = 1`,
`t = 0`, `x = [1]`: the tableau of librk4.h asks for the states `1`, `3/2`,
`7/4`, `11/4` at the four stages.  The code hands `x` itself to stage 2 (the
coupling it reads is `rk4_a[0] = 0`) and couples the stages 3 and 4 with `1/2`
and `1/2`, so the states are `1`, `1`, `3/2`, `7/4`. -/
theorem rk4_stage_states_linear :
    (rk4 (some ⟨1, 1, linear_ode 1⟩) (some [0]) 0 (some [1]) none none () ()
        ⟨[], []⟩).status = RK4_SUCCESS ∧
      (rk4 (some ⟨1, 1, linear_ode 1⟩) (some [0]) 0 (some [1]) none none () ()
        ⟨[], []⟩).calls.map (fun c => c.x) = [[1], [1], [3 / 2], [7 / 4]] ∧
      ([[1], [1], [3 / 2], [7 / 4]] : List (List rk4_float)) ≠
        [[1], [1 + 1 / 2 * 1], [1 + 1 / 2 * (3 / 2)], [1 + 1 * (7 / 4)]] := by
  refine ⟨by decide, ?_, ?_⟩
  · norm_num [rk4, malloc, fresh, free, rk4_alloc_k, rk4_free_k, RK4_ORDER, List.range_succ,
      List.range', rk4_stages, invoke, rk4_f_loop, rk4_z_loop, linear_ode, rk4_a, rk4_c]
  · norm_num

/-- C2: on a successful call of `rk4` whose output buffer has room for
`f_size` entries, every entry `i < f_size` of `xp` is
`x[i] + h * (k1[i]/6 + k2[i]/3 + k3[i]/3 + k4[i]/6)`, where `k1 .. k4` are
the stage buffers at the end of the stage computation. -/
theorem rk4_final_combination {σ D : Type} (o : rk4_opts σ D) (xpb : List rk4_float)
    (t : rk4_float) (xb : List rk4_float) (u : Option (List rk4_float))
    (p : Option (List (List rk4_float))) (data : D) (env : σ) (hp : Heap)
    (hok : (rk4 (some o) (some xpb) t (some xb) u p data env hp).status = RK4_SUCCESS)
    (hlen : o.f_size ≤ xpb.length) :
    ∃ out, (rk4 (some o) (some xpb) t (some xb) u p data env hp).xp = some out ∧
      ∀ i, i < o.f_size → out[i]? = some (xb.getD i 0 + o.h *
        (((rk4_stages o t xb u p data env).k.getD 0 []).getD i 0 / 6 +
          ((rk4_stages o t xb u p data env).k.getD 1 []).getD i 0 / 3 +
          ((rk4_stages o t xb u p data env).k.getD 2 []).getD i 0 / 3 +
          ((rk4_stages o t xb u p data env).k.getD 3 []).getD i 0 / 6)) := by
  refine ⟨_, (rk4_success_outcome o xpb t xb u p data env hp hok).1, fun i hi => ?_⟩
  unfold rk4_output
  rw [set_loop_getElem? (fun i => xb.getD i 0 + o.h * rk4_df (rk4_stages o t xb u p data env).k i),
    if_pos ⟨hi, Nat.lt_of_lt_of_le hi hlen⟩, rk4_df_eq]

/-- C2 at the scalar field `xdot[0] = x[0]`, `h = 1`, `x = [1]`. -/
theorem rk4_final_combination_witness :
    ∃ out, (rk4 (some ⟨1, 1, linear_ode 1⟩) (some [0]) 0 (some [1]) none none () ()
        ⟨[], []⟩).xp = some out ∧
      ∀ i, i < 1 → out[i]? = some (([1] : List rk4_float).getD i 0 + 1 *
        (((rk4_stages ⟨1, 1, linear_ode 1⟩ 0 [1] none none () ()).k.getD 0 []).getD i 0 / 6 +
          ((rk4_stages ⟨1, 1, linear_ode 1⟩ 0 [1] none none () ()).k.getD 1 []).getD i 0 / 3 +
          ((rk4_stages ⟨1, 1, linear_ode 1⟩ 0 [1] none none () ()).k.getD 2 []).getD i 0 / 3 +
          ((rk4_stages ⟨1, 1, linear_ode 1⟩ 0 [1] none none () ()).k.getD 3 []).getD i 0 / 6)) :=
  rk4_final_combination ⟨1, 1, linear_ode 1⟩ [0] 0 [1] none none () () ⟨[], []⟩
    (by decide) (by decide)

/-- C4, evaluated on the code.  The field `xdot[0] = lambda * x[0]` with
`lambda = 1`, `h = 1`, `x0 = 1`, so `z = 1`: the amplification factor
`1 + z + z^2/2 + z^3/6 + z^4/24` is `65/24`, and `rk4` returns `xp[0] = 55/24`
(which is `1 + z + z^2/4 + z^3/24`). -/
theorem rk4_linear_step_value :
    (rk4 (some ⟨1, 1, linear_ode 1⟩) (some [0]) 0 (some [1]) none none () ()
        ⟨[], []⟩).status = RK4_SUCCESS ∧
      (rk4 (some ⟨1, 1, linear_ode 1⟩) (some [0]) 0 (some [1]) none none () ()
        ⟨[], []⟩).xp = some [55 / 24] ∧
      (55 / 24 : rk4_float) ≠ 1 * (1 + 1 + 1 ^ 2 / 2 + 1 ^ 3 / 6 + 1 ^ 4 / 24) := by
  refine ⟨by decide, ?_, ?_⟩
  · norm_num [rk4, malloc, fresh, free, rk4_alloc_k, rk4_free_k, RK4_ORDER, List.range_succ,
      List.range', rk4_stages, invoke, rk4_f_loop, rk4_z_loop, linear_ode, rk4_a, rk4_c,
      rk4_output, rk4_df, rk4_b]
  · norm_num

/-- C5: a call of `rk4` in which `o`, `xp` or `x` is null returns
`RK4_NULLPTR`; the heap is as before, the allocator has not been asked for
anything, the vector field has not been invoked, and `xp` and the state of
the callback are as before. -/
theorem rk4_null_argument {σ D : Type} (o : Option (rk4_opts σ D))
    (xp : Option (List rk4_float)) (t : rk4_float) (x : Option (List rk4_float))
    (u : Option (List rk4_float)) (p : Option (List (List rk4_float))) (data : D) (env : σ)
    (hp : Heap) (h : o = none ∨ xp = none ∨ x = none) :
    (rk4 o xp t x u p data env hp).status = RK4_NULLPTR ∧
      (rk4 o xp t x u p data env hp).heap = hp ∧
      (rk4 o xp t x u p data env hp).calls = [] ∧
      (rk4 o xp t x u p data env hp).xp = xp ∧
      (rk4 o xp t x u p data env hp).env = env := by
  rw [rk4_null o xp t x u p data env hp h]
  exact ⟨rfl, rfl, rfl, rfl, rfl⟩

/-- C5 at a call with the state `x` absent and `xp = [5, 6]`. -/
theorem rk4_null_argument_witness :
    (rk4 (some ⟨1, 1, linear_ode 1⟩) (some [5, 6]) 0 none none none () ()
        ⟨[3], [false]⟩).status = RK4_NULLPTR ∧
      (rk4 (some ⟨1, 1, linear_ode 1⟩) (some [5, 6]) 0 none none none () ()
        ⟨[3], [false]⟩).heap = ⟨[3], [false]⟩ ∧
      (rk4 (some ⟨1, 1, linear_ode 1⟩) (some [5, 6]) 0 none none none () ()
        ⟨[3], [false]⟩).calls = [] ∧
      (rk4 (some ⟨1, 1, linear_ode 1⟩) (some [5, 6]) 0 none none none () ()
        ⟨[3], [false]⟩).xp = some [5, 6] ∧
      (rk4 (some ⟨1, 1, linear_ode 1⟩) (some [5, 6]) 0 none none none () ()
        ⟨[3], [false]⟩).env = () :=
  rk4_null_argument (some ⟨1, 1, linear_ode 1⟩) (some [5, 6]) 0 none none none () ()
    ⟨[3], [false]⟩ (Or.inr (Or.inr rfl))

/-- C6: with `o`, `xp` and `x` present, if the allocator refuses one of the six
acquisitions (the stage table, the four stage buffers, the scratch vector),
`rk4` returns `RK4_EMALLOC`, the vector field has not been invoked, and `xp`
is as before. -/
theorem rk4_alloc_failure {σ D : Type} (o : rk4_opts σ D) (xpb : List rk4_float)
    (t : rk4_float) (xb : List rk4_float) (u : Option (List rk4_float))
    (p : Option (List (List rk4_float))) (data : D) (env : σ) (hp : Heap)
    (hfail : ∃ j, j < RK4_ORDER + 2 ∧ hp.oracle.getD j true = false) :
    (rk4 (some o) (some xpb) t (some xb) u p data env hp).status = RK4_EMALLOC ∧
      (rk4 (some o) (some xpb) t (some xb) u p data env hp).calls = [] ∧
      (rk4 (some o) (some xpb) t (some xb) u p data env hp).xp = some xpb := by
  have hns : (rk4 (some o) (some xpb) t (some xb) u p data env hp).status ≠ RK4_SUCCESS := by
    intro hs
    obtain ⟨j, hj, hjf⟩ := hfail
    have := (rk4_status_success_iff o xpb t xb u p data env hp).1 hs j hj
    rw [hjf] at this
    exact absurd this (by decide)
  obtain ⟨hc, hx, -⟩ := rk4_failure_frame (some o) (some xpb) t (some xb) u p data env hp hns
  refine ⟨?_, hc, hx⟩
  rcases rk4_status_nonnull o xpb t xb u p data env hp with h | h
  · exact absurd h hns
  · exact h

/-- C6 at a call in which the fourth stage buffer is refused. -/
theorem rk4_alloc_failure_witness :
    (rk4 (some ⟨1, 1, linear_ode 1⟩) (some [5]) 0 (some [1]) none none () ()
        ⟨[], [true, true, true, true, false]⟩).status = RK4_EMALLOC ∧
      (rk4 (some ⟨1, 1, linear_ode 1⟩) (some [5]) 0 (some [1]) none none () ()
        ⟨[], [true, true, true, true, false]⟩).calls = [] ∧
      (rk4 (some ⟨1, 1, linear_ode 1⟩) (some [5]) 0 (some [1]) none none () ()
        ⟨[], [true, true, true, true, false]⟩).xp = some [5] :=
  rk4_alloc_failure ⟨1, 1, linear_ode 1⟩ [5] 0 [1] none none () ()
    ⟨[], [true, true, true, true, false]⟩ ⟨4, by decide, by decide⟩

/-- C7, evaluated on the code.  The allocator grants the stage table and is
made to refuse, in turn, the stage buffer `k[0]`, `k[1]`, `k[2]`, `k[3]` and
the scratch vector, on a heap with no live block.  `rk4` returns
`RK4_EMALLOC` each time.  For `k[0]` and for the scratch vector no block is
left live; for `k[1]`, `k[2]`, `k[3]` the stage buffers acquired before are
still live on return (the early return frees the table only). -/
theorem rk4_stage_buffer_failure_live :
    (rk4 (some ⟨1, 1, linear_ode 1⟩) (some [0]) 0 (some [1]) none none () ()
        ⟨[], [true, false]⟩).heap.live = [] ∧
      (rk4 (some ⟨1, 1, linear_ode 1⟩) (some [0]) 0 (some [1]) none none () ()
        ⟨[], [true, true, false]⟩).status = RK4_EMALLOC ∧
      (rk4 (some ⟨1, 1, linear_ode 1⟩) (some [0]) 0 (some [1]) none none () ()
        ⟨[], [true, true, false]⟩).heap.live = [2] ∧
      (rk4 (some ⟨1, 1, linear_ode 1⟩) (some [0]) 0 (some [1]) none none () ()
        ⟨[], [true, true, true, false]⟩).heap.live = [3, 2] ∧
      (rk4 (some ⟨1, 1, linear_ode 1⟩) (some [0]) 0 (some [1]) none none () ()
        ⟨[], [true, true, true, true, false]⟩).heap.live = [4, 3, 2] ∧
      (rk4 (some ⟨1, 1, linear_ode 1⟩) (some [0]) 0 (some [1]) none none () ()
        ⟨[], [true, true, true, true, true, false]⟩).heap.live = [] := by
  decide

/-- C8: `rk4` returns `RK4_SUCCESS` exactly when `o`, `xp` and `x` are present
and the allocator grants the six acquisitions; `RK4_NULLPTR` exactly when one
of `o`, `xp`, `x` is null; `RK4_EMALLOC` exactly when the three are present and
the allocator refuses one of the six acquisitions; never `RK4_GENERIC`; and
the value returned is the same for any other vector field, step, dimension,
time, `u`, `p`, `data` and state of the callback. -/
theorem rk4_status_characterisation {σ D : Type} (o : Option (rk4_opts σ D))
    (xp : Option (List rk4_float)) (t : rk4_float) (x : Option (List rk4_float))
    (u : Option (List rk4_float)) (p : Option (List (List rk4_float))) (data : D) (env : σ)
    (hp : Heap) :
    ((rk4 o xp t x u p data env hp).status = RK4_SUCCESS ↔
        (o ≠ none ∧ xp ≠ none ∧ x ≠ none) ∧
          ∀ j, j < RK4_ORDER + 2 → hp.oracle.getD j true = true) ∧
      ((rk4 o xp t x u p data env hp).status = RK4_NULLPTR ↔
        (o = none ∨ xp = none ∨ x = none)) ∧
      ((rk4 o xp t x u p data env hp).status = RK4_EMALLOC ↔
        (o ≠ none ∧ xp ≠ none ∧ x ≠ none) ∧
          ∃ j, j < RK4_ORDER + 2 ∧ hp.oracle.getD j true = false) ∧
      (rk4 o xp t x u p data env hp).status ≠ RK4_GENERIC ∧
      ∀ (o1 : Option (rk4_opts σ D)) (t1 : rk4_float) (u1 : Option (List rk4_float))
        (p1 : Option (List (List rk4_float))) (data1 : D) (env1 : σ),
        (o1 = none ↔ o = none) →
          (rk4 o1 xp t1 x u1 p1 data1 env1 hp).status = (rk4 o xp t x u p data env hp).status := by
  have hiff : (o.isNone ∨ xp.isNone ∨ x.isNone) ↔ (o = none ∨ xp = none ∨ x = none) := by
    simp [Option.isNone_iff_eq_none]
  have hneg : ¬ (o = none ∨ xp = none ∨ x = none) ↔ (o ≠ none ∧ xp ≠ none ∧ x ≠ none) := by
    simp [not_or]
  have hex : ¬ (∀ j, j < RK4_ORDER + 2 → hp.oracle.getD j true = true) ↔
      ∃ j, j < RK4_ORDER + 2 ∧ hp.oracle.getD j true = false := by
    simp
  refine ⟨?_, ?_, ?_, ?_, ?_⟩
  · rw [rk4_status_eq, ← hneg]
    by_cases hn : o = none ∨ xp = none ∨ x = none
    · simp [hiff.2 hn, hn]
    · by_cases hg : ∀ j, j < RK4_ORDER + 2 → hp.oracle.getD j true = true
      · rw [if_neg (mt hiff.1 hn), if_pos hg]
        exact ⟨fun _ => ⟨hn, hg⟩, fun _ => rfl⟩
      · rw [if_neg (mt hiff.1 hn), if_neg hg]
        exact ⟨fun h => (by cases h), fun h => absurd h.2 hg⟩
  · rw [rk4_status_eq]
    by_cases hn : o = none ∨ xp = none ∨ x = none
    · rw [if_pos (hiff.2 hn)]
      exact ⟨fun _ => hn, fun _ => rfl⟩
    · rw [if_neg (mt hiff.1 hn)]
      constructor
      · intro h
        split at h <;> cases h
      · intro h
        exact absurd h hn
  · rw [rk4_status_eq, ← hneg, ← hex]
    by_cases hn : o = none ∨ xp = none ∨ x = none
    · rw [if_pos (hiff.2 hn)]
      exact ⟨fun h => (by cases h), fun h => absurd hn h.1⟩
    · by_cases hg : ∀ j, j < RK4_ORDER + 2 → hp.oracle.getD j true = true
      · rw [if_neg (mt hiff.1 hn), if_pos hg]
        exact ⟨fun h => (by cases h), fun h => absurd hg h.2⟩
      · rw [if_neg (mt hiff.1 hn), if_neg hg]
        exact ⟨fun _ => ⟨hn, hg⟩, fun _ => rfl⟩
  · rw [rk4_status_eq]
    intro h
    split at h
    · cases h
    · split at h <;> cases h
  · intro o1 t1 u1 p1 data1 env1 ho
    rw [rk4_status_eq, rk4_status_eq]
    have h1 : (o1.isNone ∨ xp.isNone ∨ x.isNone) ↔ (o.isNone ∨ xp.isNone ∨ x.isNone) := by
      simp only [Option.isNone_iff_eq_none, ho]
    simp only [h1]

/-- C8 at two calls that differ in the vector field, the step, the time and
`u`: the value returned is the same. -/
theorem rk4_status_characterisation_witness :
    (rk4 (some ⟨2, 1, linear_ode 3⟩) (some [0]) 5 (some [1]) (some [1]) none () ()
        ⟨[], [true, false]⟩).status =
      (rk4 (some ⟨1, 1, linear_ode 1⟩) (some [0]) 0 (some [1]) none none () ()
        ⟨[], [true, false]⟩).status :=
  (rk4_status_characterisation (some ⟨1, 1, linear_ode 1⟩) (some [0]) 0 (some [1]) none none
    () () ⟨[], [true, false]⟩).2.2.2.2 (some ⟨2, 1, linear_ode 3⟩) 5 (some [1]) none () ()
    (by simp)

/-- C9, evaluated on the code.  The field and the dimension of test_ode_3.c
(`f_size = 3`, `h = 1e-5`, `x = [1, 2, 3]`, no `u`, no `p`): the successful
call invokes the vector field ten times, once for stage 1 and three times for
each of the stages 2, 3 and 4. -/
theorem rk4_invocations_dim3 :
    (rk4 (some ⟨1 / 100000, 3, riccati_ode⟩) (some [0, 0, 0]) (1 / 100000) (some [1, 2, 3])
        none none () () ⟨[], []⟩).status = RK4_SUCCESS ∧
      (rk4 (some ⟨1 / 100000, 3, riccati_ode⟩) (some [0, 0, 0]) (1 / 100000) (some [1, 2, 3])
        none none () () ⟨[], []⟩).calls.length = 10 ∧
      (rk4 (some ⟨1 / 100000, 3, riccati_ode⟩) (some [0, 0, 0]) (1 / 100000) (some [1, 2, 3])
        none none () () ⟨[], []⟩).calls.map (fun c => c.stage) =
          [0, 1, 1, 1, 2, 2, 2, 3, 3, 3] := by
  decide

theorem le_foldr_max (l : List Nat) (a : Nat) (h : a ∈ l) : a ≤ l.foldr max 0 := by
  induction l with
  | nil => cases h
  | cons b l ih =>
    rw [List.foldr_cons]
    rcases List.mem_cons.1 h with rfl | h1
    · exact Nat.le_max_left _ _
    · exact Nat.le_trans (ih h1) (Nat.le_max_right _ _)

/-- The address chosen for a new block is not the address of a live block. -/
theorem fresh_not_mem (l : List Nat) : fresh l ∉ l := by
  intro h
  have := le_foldr_max l (fresh l) h
  unfold fresh at this
  omega

/-- An acquisition that is granted adds one new block to the live blocks. -/
theorem malloc_granted (hp : Heap) (h : (malloc hp).1 ≠ 0) :
    (malloc hp).1 = fresh hp.live ∧ (malloc hp).2.live = fresh hp.live :: hp.live := by
  rcases hp with ⟨live, oracle⟩
  rcases oracle with _ | ⟨b, rest⟩
  · exact ⟨rfl, rfl⟩
  · cases b
    · exact absurd rfl h
    · exact ⟨rfl, rfl⟩

theorem free_live (a : Nat) (hp : Heap) (h : a ≠ 0) : (free a hp).live = hp.live.erase a := by
  simp [free, h]

/-- When the loop that acquires the stage buffers runs to its end, the table
holds the addresses of new blocks, pairwise distinct, and these blocks have
been added to the live blocks. -/
theorem rk4_alloc_k_live (ktab : Nat) (ls ks : List Nat) (hp : Heap) (r : List Nat × Heap)
    (h : rk4_alloc_k ktab ls ks hp = .ok r) :
    ∃ bs : List Nat, r.1 = ks ++ bs ∧ r.2.live = bs.reverse ++ hp.live ∧ bs.Nodup ∧
      bs.length = ls.length ∧ ∀ a, a ∈ bs → a ≠ 0 ∧ a ∉ hp.live := by
  induction ls generalizing ks hp with
  | nil =>
    simp only [rk4_alloc_k, Except.ok.injEq] at h
    refine ⟨[], ?_, ?_, List.nodup_nil, rfl, ?_⟩
    · simp [← h]
    · simp [← h]
    · intro a ha; cases ha
  | cons l ls ih =>
    by_cases h0 : (malloc hp).1 = 0
    · simp [rk4_alloc_k, h0] at h
    · simp only [rk4_alloc_k, h0, if_false] at h
      obtain ⟨ha, hl⟩ := malloc_granted hp h0
      obtain ⟨bs, h1, h2, h3, h4, h5⟩ := ih _ _ h
      rw [hl] at h2 h5
      rw [ha] at h1
      refine ⟨fresh hp.live :: bs, ?_, ?_, ?_, ?_, ?_⟩
      · rw [h1]; simp
      · rw [h2]; simp
      · refine List.nodup_cons.2 ⟨fun hm => ?_, h3⟩
        exact (h5 _ hm).2 (List.mem_cons_self _ _)
      · simp [h4]
      · intro a hm
        rcases List.mem_cons.1 hm with rfl | hm1
        · exact ⟨fresh_ne_zero _, fresh_not_mem _⟩
        · exact ⟨(h5 a hm1).1, fun hin => (h5 a hm1).2 (List.mem_cons_of_mem _ hin)⟩

/-- The loop that frees the stage buffers removes each of them from the live
blocks. -/
theorem rk4_free_k_live (bs X Y : List Nat) (hp : Heap) (hl : hp.live = X ++ (bs.reverse ++ Y))
    (hnd : bs.Nodup) (hnz : ∀ a, a ∈ bs → a ≠ 0) (hX : ∀ a, a ∈ bs → a ∉ X) :
    (rk4_free_k bs hp).live = X ++ Y := by
  induction bs generalizing hp with
  | nil => simpa [rk4_free_k] using hl
  | cons b bs ih =>
    have hb : b ∉ bs := (List.nodup_cons.1 hnd).1
    have hstep : (free b hp).live = X ++ (bs.reverse ++ Y) := by
      rw [free_live b hp (hnz b (List.mem_cons_self _ _)), hl, List.reverse_cons,
        List.append_assoc, List.erase_append_right _ (hX b (List.mem_cons_self _ _)),
        List.erase_append_right _ (fun hm => hb (List.mem_reverse.1 hm))]
      simp
    have := ih (free b hp) hstep (List.nodup_cons.1 hnd).2
      (fun a ha => hnz a (List.mem_cons_of_mem _ ha))
      (fun a ha => hX a (List.mem_cons_of_mem _ ha))
    simpa [rk4_free_k] using this

/-- The heap on return from a successful call built with the allocation
skeleton of `rk4`: six new blocks, pairwise distinct, are acquired and each is
freed, and the live blocks are as before the call. -/
theorem rk4_skeleton_live (hp : Heap) (ks : List Nat) (hp1 : Heap)
    (h0 : (malloc hp).1 ≠ 0)
    (hr : rk4_alloc_k (malloc hp).1 (List.range RK4_ORDER) [] (malloc hp).2 = .ok (ks, hp1))
    (hz : (malloc hp1).1 ≠ 0) :
    (free (malloc hp1).1 (free (malloc hp).1 (rk4_free_k ks (malloc hp1).2))).live = hp.live ∧
      ((malloc hp).1 :: ks ++ [(malloc hp1).1]).Nodup ∧
      ((malloc hp).1 :: ks ++ [(malloc hp1).1]).length = RK4_ORDER + 2 ∧
      (∀ a, a ∈ (malloc hp).1 :: ks ++ [(malloc hp1).1] → a ≠ 0 ∧ a ∉ hp.live) ∧
      (malloc hp1).2.live = (malloc hp1).1 :: (ks.reverse ++ (malloc hp).1 :: hp.live) := by
  obtain ⟨ha, hl⟩ := malloc_granted hp h0
  obtain ⟨bs, h1, h2, h3, h4, h5⟩ := rk4_alloc_k_live _ _ _ _ _ hr
  simp only [List.nil_append] at h1
  subst h1
  obtain ⟨hza, hzl⟩ := malloc_granted hp1 hz
  simp only at h2
  rw [hl] at h2 h5
  have hzfresh : (malloc hp1).1 ∉ ks.reverse ++ (malloc hp).1 :: hp.live := by
    rw [hza, ha, ← h2]; exact fresh_not_mem _
  have hzks : ∀ a, a ∈ ks → a ≠ (malloc hp1).1 := by
    intro a hm he
    exact hzfresh (he ▸ List.mem_append_left _ (List.mem_reverse.2 hm))
  have hzkt : (malloc hp1).1 ≠ (malloc hp).1 := by
    intro he
    exact hzfresh (he ▸ List.mem_append_right _ (List.mem_cons_self _ _))
  have hzL : (malloc hp1).1 ∉ hp.live := fun hm =>
    hzfresh (List.mem_append_right _ (List.mem_cons_of_mem _ hm))
  have hktks : (malloc hp).1 ∉ ks := by
    intro hm
    exact (h5 _ hm).2 (ha ▸ List.mem_cons_self _ _)
  have hktL : (malloc hp).1 ∉ hp.live := by rw [ha]; exact fresh_not_mem _
  have hlive2 : (malloc hp1).2.live = (malloc hp1).1 :: (ks.reverse ++ (malloc hp).1 :: hp.live) := by
    rw [hzl, hza, ha, h2]
  have hfk := rk4_free_k_live ks [(malloc hp1).1] ((malloc hp).1 :: hp.live) (malloc hp1).2
    (by rw [hlive2]; rfl) h3 (fun a hm => (h5 a hm).1)
    (fun a hm hin => hzks a hm (List.mem_singleton.1 hin))
  refine ⟨?_, ?_, ?_, ?_, hlive2⟩
  · rw [free_live _ _ hz, free_live _ _ h0, hfk]
    simp only [List.singleton_append]
    rw [List.erase_cons_tail (by simpa using hzkt), List.erase_cons_head, List.erase_cons_head]
  · rw [List.cons_append, List.nodup_cons]
    refine ⟨?_, ?_⟩
    · rw [List.mem_append, List.mem_singleton]
      rintro (hm | he)
      · exact hktks hm
      · exact hzkt he.symm
    · rw [List.nodup_append]
      refine ⟨h3, List.nodup_singleton _, ?_⟩
      intro a hm hs
      exact hzks a hm (List.mem_singleton.1 hs)
  · simp [h4, RK4_ORDER]
  · intro a hm
    rw [List.cons_append, List.mem_cons, List.mem_append, List.mem_singleton] at hm
    rcases hm with rfl | hm | rfl
    · exact ⟨h0, hktL⟩
    · exact ⟨(h5 a hm).1, fun hin => (h5 a hm).2 (List.mem_cons_of_mem _ hin)⟩
    · exact ⟨hz, hzL⟩

/-- On a successful call the three kinds of acquisition were granted, and the
heap on return is the heap after the last acquisition with the stage buffers,
the stage table and the scratch vector freed, in this order. -/
theorem rk4_success_heap {σ D : Type} (o : rk4_opts σ D) (xpb : List rk4_float)
    (t : rk4_float) (xb : List rk4_float) (u : Option (List rk4_float))
    (p : Option (List (List rk4_float))) (data : D) (env : σ) (hp : Heap)
    (hok : (rk4 (some o) (some xpb) t (some xb) u p data env hp).status = RK4_SUCCESS) :
    ∃ (ks : List Nat) (hp1 : Heap), (malloc hp).1 ≠ 0 ∧
      rk4_alloc_k (malloc hp).1 (List.range RK4_ORDER) [] (malloc hp).2 = .ok (ks, hp1) ∧
      (malloc hp1).1 ≠ 0 ∧
      (rk4 (some o) (some xpb) t (some xb) u p data env hp).heap =
        free (malloc hp1).1 (free (malloc hp).1 (rk4_free_k ks (malloc hp1).2)) := by
  revert hok
  unfold rk4
  simp only
  by_cases h0 : (malloc hp).1 = 0
  · simp only [h0, if_true]
    intro h; cases h
  · simp only [h0, if_false]
    cases hr : rk4_alloc_k (malloc hp).1 (List.range RK4_ORDER) [] (malloc hp).2 with
    | error e =>
      simp only
      intro h; cases h
    | ok r =>
      obtain ⟨ks, hp1⟩ := r
      simp only
      by_cases hz : (malloc hp1).1 = 0
      · simp only [hz, if_true]
        intro h; cases h
      · simp only [hz, if_false]
        intro _
        exact ⟨ks, hp1, h0, rfl, hz, rfl⟩

/-! ## Entries of the stage buffers that stay zero -/

/-- An invocation of a vector field that leaves a zero at the entry `i` of
`xdot` keeps the entry `i` of every stage buffer at zero. -/
theorem invoke_zero_entry {σ D : Type} (o : rk4_opts σ D) (i : Nat)
    (hz : ∀ xdot tl xa u p data env, xdot.getD i 0 = 0 →
      (o.f xdot tl xa u p data env).1.getD i 0 = 0)
    (l : Nat) (tl : rk4_float) (xa : List rk4_float) (u : Option (List rk4_float))
    (p : Option (List (List rk4_float))) (data : D) (s : Stages σ D)
    (hs : ∀ m, (s.k.getD m []).getD i 0 = 0) :
    ∀ m, ((invoke o l tl xa u p data s).k.getD m []).getD i 0 = 0 := by
  intro m
  simp only [invoke]
  rw [List.getD_eq_getElem?_getD (s.k.set l _), List.getElem?_set]
  by_cases hlm : l = m
  · subst hlm
    by_cases hl : l < s.k.length
    · simp only [if_true, hl, Option.getD_some]
      exact hz _ _ _ _ _ _ _ (hs l)
    · simp [hl]
  · simp only [hlm, if_false]
    rw [← List.getD_eq_getElem?_getD]
    exact hs m

/-- At the end of the stage computation, an entry `i` that the vector field
leaves at zero is zero in every stage buffer: the buffers come zeroed from
`calloc`. -/
theorem rk4_stages_zero_entry {σ D : Type} (o : rk4_opts σ D) (i : Nat)
    (hz : ∀ xdot tl xa u p data env, xdot.getD i 0 = 0 →
      (o.f xdot tl xa u p data env).1.getD i 0 = 0)
    (t : rk4_float) (x : List rk4_float) (u : Option (List rk4_float))
    (p : Option (List (List rk4_float))) (data : D) (env : σ) :
    ∀ m, ((rk4_stages o t x u p data env).k.getD m []).getD i 0 = 0 := by
  have hfl : ∀ (l : Nat) (s : Stages σ D), (∀ m, (s.k.getD m []).getD i 0 = 0) →
      ∀ m, ((rk4_f_loop o l t u p data s).k.getD m []).getD i 0 = 0 := by
    intro l
    unfold rk4_f_loop
    generalize List.range o.f_size = xs
    induction xs with
    | nil => intro s hs; exact hs
    | cons j xs ih =>
      intro s hs
      rw [List.foldl_cons]
      exact ih _ (invoke_zero_entry o i hz l _ _ u p data s hs)
  have hzl : ∀ (l : Nat) (s : Stages σ D), (∀ m, (s.k.getD m []).getD i 0 = 0) →
      ∀ m, (((rk4_z_loop o l x s)).k.getD m []).getD i 0 = 0 := by
    intro l s hs
    rw [(rk4_z_loop_frame o l x s).2.1]
    exact hs
  have hinit : ∀ m, ((List.replicate RK4_ORDER (List.replicate o.f_size (0 : rk4_float))).getD
      m []).getD i 0 = 0 := by
    intro m
    simp only [List.getD_eq_getElem?_getD, List.getElem?_replicate]
    by_cases hm : m < RK4_ORDER <;> by_cases hi : i < o.f_size <;> simp [hm, hi]
  have hr : List.range' 1 (RK4_ORDER - 1) = [1, 2, 3] := by decide
  unfold rk4_stages
  simp only [hr, List.foldl_cons, List.foldl_nil]
  apply hfl
  apply hzl
  apply hfl
  apply hzl
  apply hfl
  apply hzl
  apply invoke_zero_entry o i hz
  exact hinit

/-! ## The output loop: frame -/

theorem set_loop_length (g : Nat → rk4_float) (n : Nat) (xp : List rk4_float) :
    ((List.range n).foldl (fun xp i => xp.set i (g i)) xp).length = xp.length := by
  induction n with
  | zero => simp
  | succ m ihm => rw [List.range_succ, List.foldl_append]; simpa using ihm

/-- The output loop sets the entries below `f_size` of `xp` to
`x[i] + h * df` and leaves the other entries as they are. -/
theorem rk4_output_getElem? {σ D : Type} (o : rk4_opts σ D) (x : List rk4_float)
    (k : List (List rk4_float)) (xp : List rk4_float) (i : Nat) :
    (rk4_output o x k xp)[i]? =
      if i < o.f_size ∧ i < xp.length then some (x.getD i 0 + o.h * rk4_df k i) else xp[i]? := by
  unfold rk4_output
  exact set_loop_getElem? (fun i => x.getD i 0 + o.h * rk4_df k i) o.f_size xp i

theorem rk4_output_length {σ D : Type} (o : rk4_opts σ D) (x : List rk4_float)
    (k : List (List rk4_float)) (xp : List rk4_float) :
    (rk4_output o x k xp).length = xp.length := by
  unfold rk4_output
  exact set_loop_length (fun i => x.getD i 0 + o.h * rk4_df k i) o.f_size xp

/-- The output loop on one buffer for `xp` and `x` computes what the output
loop computes on two buffers with the same contents: the entry `i` is read
before it is written, and no entry is read after it has been written. -/
theorem rk4_output_inplace_eq {σ D : Type} (o : rk4_opts σ D) (k : List (List rk4_float))
    (buf : List rk4_float) : rk4_output_inplace o k buf = rk4_output o buf k buf := by
  have key : ∀ (n i : Nat),
      ((List.range n).foldl (fun b j => b.set j (b.getD j 0 + o.h * rk4_df k j)) buf)[i]? =
        if i < n ∧ i < buf.length then some (buf.getD i 0 + o.h * rk4_df k i) else buf[i]? := by
    intro n
    induction n with
    | zero => intro i; simp
    | succ n ih =>
      intro i
      have hlen : ((List.range n).foldl
          (fun b j => b.set j (b.getD j 0 + o.h * rk4_df k j)) buf).length = buf.length := by
        clear ih
        induction n with
        | zero => simp
        | succ m ihm => rw [List.range_succ, List.foldl_append]; simpa using ihm
      have hn : ((List.range n).foldl
          (fun b j => b.set j (b.getD j 0 + o.h * rk4_df k j)) buf).getD n 0 = buf.getD n 0 := by
        rw [List.getD_eq_getElem?_getD, ih n, List.getD_eq_getElem?_getD]
        simp
      rw [List.range_succ, List.foldl_append, List.foldl_cons, List.foldl_nil,
        List.getElem?_set, ih, hlen, hn]
      by_cases hin : n = i
      · subst hin
        by_cases hl : n < buf.length
        · simp [hl]
        · simp [hl]
          omega
      · have h1 : (i < n + 1 ∧ i < buf.length) ↔ (i < n ∧ i < buf.length) := by omega
        simp [hin, h1]
  apply List.ext_getElem?
  intro i
  rw [rk4_output_getElem?]
  unfold rk4_output_inplace
  exact key o.f_size i

/-- Called with one pointer for `xp` and `x`, `rk4` does what it does on two
buffers with the same contents. -/
theorem rk4_inplace_eq {σ D : Type} (o : Option (rk4_opts σ D)) (b : Option (List rk4_float))
    (t : rk4_float) (u : Option (List rk4_float)) (p : Option (List (List rk4_float)))
    (data : D) (env : σ) (hp : Heap) :
    rk4_inplace o b t u p data env hp = rk4 o b t b u p data env hp := by
  cases o with
  | none => rfl
  | some opts =>
    cases b with
    | none => rfl
    | some buf =>
      unfold rk4_inplace rk4
      simp only [rk4_output_inplace_eq]

/-! ## One invocation for each stage -/

/-- For a vector field that keeps the length of `xdot` and whose result on a
buffer of `f_size` entries depends on `t`, `x`, `u`, `p`, `data` only, the
stage buffers at the end of the stage computation of `rk4` are those of the
computation with one invocation for each stage, provided `f_size` is not 0. -/
theorem rk4_stages_once_k {σ D : Type} (o : rk4_opts σ D) (hn : o.f_size ≠ 0)
    (hlen : ∀ xdot tl xa u p data env, (o.f xdot tl xa u p data env).1.length = xdot.length)
    (hpure : ∀ xdot xdot1 tl xa u p data env env1, xdot.length = o.f_size →
      xdot1.length = o.f_size →
      (o.f xdot tl xa u p data env).1 = (o.f xdot1 tl xa u p data env1).1)
    (t : rk4_float) (x : List rk4_float) (u : Option (List rk4_float))
    (p : Option (List (List rk4_float))) (data : D) (env : σ) :
    (rk4_stages o t x u p data env).k = (rk4_stages_once o t x u p data env).k := by
  -- the stage table holds four buffers of `f_size` entries
  have hW : ∀ (l : Nat) (tl : rk4_float) (xa : List rk4_float) (s : Stages σ D),
      (s.k.length = RK4_ORDER ∧ ∀ m, m < RK4_ORDER → (s.k.getD m []).length = o.f_size) →
      ((invoke o l tl xa u p data s).k.length = RK4_ORDER ∧
        ∀ m, m < RK4_ORDER → ((invoke o l tl xa u p data s).k.getD m []).length = o.f_size) := by
    intro l tl xa s hs
    refine ⟨by simpa [invoke] using hs.1, fun m hm => ?_⟩
    simp only [invoke]
    rw [List.getD_eq_getElem?_getD (s.k.set l _), List.getElem?_set]
    by_cases hlm : l = m
    · subst hlm
      have hl : l < s.k.length := by rw [hs.1]; exact hm
      simp only [if_true, hl, Option.getD_some]
      rw [hlen]
      exact hs.2 l hm
    · simp only [hlm, if_false]
      rw [← List.getD_eq_getElem?_getD]
      exact hs.2 m hm
  -- the state of the callback does not matter for the stage buffers
  have hK : ∀ (l : Nat) (tl : rk4_float) (xa : List rk4_float) (s s1 : Stages σ D),
      l < RK4_ORDER →
      (s.k.length = RK4_ORDER ∧ ∀ m, m < RK4_ORDER → (s.k.getD m []).length = o.f_size) →
      s.k = s1.k →
      (invoke o l tl xa u p data s).k = (invoke o l tl xa u p data s1).k := by
    intro l tl xa s s1 hl hs hk
    simp only [invoke, ← hk]
    rw [hpure (s.k.getD l []) (s.k.getD l []) tl xa u p data s.env s1.env (hs.2 l hl) (hs.2 l hl)]
  -- a second invocation with the same arguments changes no stage buffer
  have hidem : ∀ (l : Nat) (tl : rk4_float) (xa : List rk4_float) (s : Stages σ D),
      l < RK4_ORDER →
      (s.k.length = RK4_ORDER ∧ ∀ m, m < RK4_ORDER → (s.k.getD m []).length = o.f_size) →
      (invoke o l tl xa u p data (invoke o l tl xa u p data s)).k =
        (invoke o l tl xa u p data s).k := by
    intro l tl xa s hl hs
    have h1 := (hW l tl xa s hs).2 l hl
    have h2 := hpure ((invoke o l tl xa u p data s).k.getD l []) (s.k.getD l []) tl xa u p data
      (invoke o l tl xa u p data s).env s.env h1 (hs.2 l hl)
    have h3 : (invoke o l tl xa u p data (invoke o l tl xa u p data s)).k =
        (invoke o l tl xa u p data s).k.set l
          (o.f ((invoke o l tl xa u p data s).k.getD l []) tl xa u p data
            (invoke o l tl xa u p data s).env).1 := rfl
    rw [h3, h2]
    simp only [invoke, List.set_set]
  have hfold : ∀ (l : Nat) (tl : rk4_float) (xs : List Nat) (s : Stages σ D),
      l < RK4_ORDER →
      (s.k.length = RK4_ORDER ∧ ∀ m, m < RK4_ORDER → (s.k.getD m []).length = o.f_size) →
      (xs.foldl (fun s _ => invoke o l tl s.z u p data s) (invoke o l tl s.z u p data s)).k =
        (invoke o l tl s.z u p data s).k := by
    intro l tl xs
    induction xs with
    | nil => intro s _ _; rfl
    | cons j xs ih =>
      intro s hl hs
      rw [List.foldl_cons]
      have hz : (invoke o l tl s.z u p data s).z = s.z := rfl
      rw [hz]
      have := ih (invoke o l tl s.z u p data s) hl (hW l tl s.z s hs)
      rw [hz] at this
      rw [this, hidem l tl s.z s hl hs]
  have hfl : ∀ (l : Nat) (s : Stages σ D), l < RK4_ORDER →
      (s.k.length = RK4_ORDER ∧ ∀ m, m < RK4_ORDER → (s.k.getD m []).length = o.f_size) →
      (rk4_f_loop o l t u p data s).k =
        (invoke o l (t + rk4_c.getD l 0 * o.h) s.z u p data s).k := by
    intro l s hl hs
    unfold rk4_f_loop
    obtain ⟨n, hn1⟩ : ∃ n, o.f_size = n + 1 := Nat.exists_eq_succ_of_ne_zero hn
    rw [hn1, List.range_succ_eq_map, List.foldl_cons]
    exact hfold l _ _ s hl hs
  -- the loop that fills the scratch vector reads the stage buffers and `x` only
  have hzc : ∀ (l : Nat) (s s1 : Stages σ D), s.k = s1.k → s.z = s1.z →
      (rk4_z_loop o l x s).z = (rk4_z_loop o l x s1).z := by
    intro l
    unfold rk4_z_loop
    generalize List.range o.f_size = xs
    have both : ∀ (xs : List Nat) (s s1 : Stages σ D), s.k = s1.k → s.z = s1.z →
        (xs.foldl (fun s i =>
            let zi := x.getD i 0 + o.h * rk4_a.getD (l - 1) 0 * (s.k.getD (l - 1) []).getD i 0
            { s with z := s.z.set i zi }) s).z =
          (xs.foldl (fun s i =>
            let zi := x.getD i 0 + o.h * rk4_a.getD (l - 1) 0 * (s.k.getD (l - 1) []).getD i 0
            { s with z := s.z.set i zi }) s1).z := by
      intro xs
      induction xs with
      | nil => intro s s1 _ hz; exact hz
      | cons i xs ih =>
        intro s s1 hk hz
        rw [List.foldl_cons, List.foldl_cons]
        apply ih
        · exact hk
        · simp only [hk, hz]
    exact both xs
  have hstep : ∀ (l : Nat) (a b : Stages σ D), l < RK4_ORDER →
      (a.k.length = RK4_ORDER ∧ ∀ m, m < RK4_ORDER → (a.k.getD m []).length = o.f_size) →
      a.k = b.k → a.z = b.z →
      (((rk4_f_loop o l t u p data (rk4_z_loop o l x a)).k.length = RK4_ORDER ∧
          ∀ m, m < RK4_ORDER →
            ((rk4_f_loop o l t u p data (rk4_z_loop o l x a)).k.getD m []).length = o.f_size) ∧
        (rk4_f_loop o l t u p data (rk4_z_loop o l x a)).k =
          (invoke o l (t + rk4_c.getD l 0 * o.h) (rk4_z_loop o l x b).z u p data
            (rk4_z_loop o l x b)).k ∧
        (rk4_f_loop o l t u p data (rk4_z_loop o l x a)).z =
          (invoke o l (t + rk4_c.getD l 0 * o.h) (rk4_z_loop o l x b).z u p data
            (rk4_z_loop o l x b)).z) := by
    intro l a b hl ha hk hz
    have hka : (rk4_z_loop o l x a).k = a.k := (rk4_z_loop_frame o l x a).2.1
    have hkb : (rk4_z_loop o l x b).k = b.k := (rk4_z_loop_frame o l x b).2.1
    have hWa : (rk4_z_loop o l x a).k.length = RK4_ORDER ∧
        ∀ m, m < RK4_ORDER → ((rk4_z_loop o l x a).k.getD m []).length = o.f_size := by
      rw [hka]; exact ha
    have hzz := hzc l a b hk hz
    have hkf := hfl l (rk4_z_loop o l x a) hl hWa
    refine ⟨?_, ?_, ?_⟩
    · rw [hkf]
      exact hW l _ _ _ hWa
    · rw [hkf, hzz]
      exact hK l _ _ _ _ hl hWa (hka.trans (hk.trans hkb.symm))
    · rw [(rk4_f_loop_calls o l t u p data _).1]
      exact hzz
  have hinit : (List.replicate RK4_ORDER (List.replicate o.f_size (0 : rk4_float))).length
        = RK4_ORDER ∧
      ∀ m, m < RK4_ORDER →
        ((List.replicate RK4_ORDER (List.replicate o.f_size (0 : rk4_float))).getD m []).length
          = o.f_size := by
    refine ⟨List.length_replicate _ _, fun m hm => ?_⟩
    simp only [List.getD_eq_getElem?_getD, List.getElem?_replicate]
    simp [hm]
  have hr : List.range' 1 (RK4_ORDER - 1) = [1, 2, 3] := by decide
  unfold rk4_stages rk4_stages_once
  simp only [hr, List.foldl_cons, List.foldl_nil]
  generalize hs1 : invoke o 0 t x u p data
    { k := List.replicate RK4_ORDER (List.replicate o.f_size 0),
      z := List.replicate o.f_size 0, env := env, calls := [] } = s1
  have hW1 : s1.k.length = RK4_ORDER ∧
      ∀ m, m < RK4_ORDER → (s1.k.getD m []).length = o.f_size := by
    rw [← hs1]
    exact hW 0 t x _ hinit
  obtain ⟨w1, k1, z1⟩ := hstep 1 s1 s1 (by decide) hW1 rfl rfl
  obtain ⟨w2, k2, z2⟩ := hstep 2 _ _ (by decide) w1 k1 z1
  obtain ⟨-, k3, -⟩ := hstep 3 _ _ (by decide) w2 k2 z2
  exact k3

/-- The variant with one invocation for each stage returns the value that
`rk4` returns and leaves the same heap; it leaves the same `xp` when the output
loop computes the same from the two sets of stage buffers. -/
theorem rk4_once_outcome {σ D : Type} (o : rk4_opts σ D) (xpb : List rk4_float)
    (t : rk4_float) (xb : List rk4_float) (u : Option (List rk4_float))
    (p : Option (List (List rk4_float))) (data : D) (env : σ) (hp : Heap) :
    (rk4_once (some o) (some xpb) t (some xb) u p data env hp).status =
        (rk4 (some o) (some xpb) t (some xb) u p data env hp).status ∧
      (rk4_once (some o) (some xpb) t (some xb) u p data env hp).heap =
        (rk4 (some o) (some xpb) t (some xb) u p data env hp).heap ∧
      (rk4_output o xb (rk4_stages_once o t xb u p data env).k xpb =
          rk4_output o xb (rk4_stages o t xb u p data env).k xpb →
        (rk4_once (some o) (some xpb) t (some xb) u p data env hp).xp =
          (rk4 (some o) (some xpb) t (some xb) u p data env hp).xp) := by
  unfold rk4 rk4_once
  simp only
  by_cases h0 : (malloc hp).1 = 0
  · rw [if_pos h0, if_pos h0]
    exact ⟨rfl, rfl, fun _ => rfl⟩
  · rw [if_neg h0, if_neg h0]
    cases hr : rk4_alloc_k (malloc hp).1 (List.range RK4_ORDER) [] (malloc hp).2 with
    | error e => exact ⟨rfl, rfl, fun _ => rfl⟩
    | ok r =>
      obtain ⟨ks, hp1⟩ := r
      by_cases hz : (malloc hp1).1 = 0
      · simp only
        rw [if_pos hz, if_pos hz]
        exact ⟨rfl, rfl, fun _ => rfl⟩
      · simp only
        rw [if_neg hz, if_neg hz]
        exact ⟨rfl, rfl, fun h => congrArg some h⟩

/-! ## The claims, continued -/

/-- C11: on a successful call of `rk4` with `h = 0` whose output buffer has
room for `f_size` entries, every entry `i < f_size` of `xp` is `x[i]`,
whatever the vector field. -/
theorem rk4_zero_step {σ D : Type} (o : rk4_opts σ D) (xpb : List rk4_float)
    (t : rk4_float) (xb : List rk4_float) (u : Option (List rk4_float))
    (p : Option (List (List rk4_float))) (data : D) (env : σ) (hp : Heap)
    (hok : (rk4 (some o) (some xpb) t (some xb) u p data env hp).status = RK4_SUCCESS)
    (hh : o.h = 0) (hlen : o.f_size ≤ xpb.length) :
    ∃ out, (rk4 (some o) (some xpb) t (some xb) u p data env hp).xp = some out ∧
      ∀ i, i < o.f_size → out[i]? = some (xb.getD i 0) := by
  refine ⟨_, (rk4_success_outcome o xpb t xb u p data env hp hok).1, fun i hi => ?_⟩
  rw [rk4_output_getElem?, if_pos ⟨hi, Nat.lt_of_lt_of_le hi hlen⟩, hh, zero_mul, add_zero]

/-- C11 at the scalar field `xdot[0] = x[0]` with `h = 0` and `x = [3]`. -/
theorem rk4_zero_step_witness :
    ∃ out, (rk4 (some ⟨0, 1, linear_ode 1⟩) (some [5]) 0 (some [3]) none none () ()
        ⟨[], []⟩).xp = some out ∧
      ∀ i, i < 1 → out[i]? = some (([3] : List rk4_float).getD i 0) :=
  rk4_zero_step ⟨0, 1, linear_ode 1⟩ [5] 0 [3] none none () () ⟨[], []⟩
    (by decide) rfl (by decide)

/-- C12: if the vector field writes `0` to every entry below `f_size` of
`xdot` at every invocation, a successful call of `rk4` whose output buffer has
room for `f_size` entries leaves `x[i]` in every entry `i < f_size` of `xp`,
whatever `h`, `t`, `u` and `p` are. -/
theorem rk4_zero_field {σ D : Type} (o : rk4_opts σ D) (xpb : List rk4_float)
    (t : rk4_float) (xb : List rk4_float) (u : Option (List rk4_float))
    (p : Option (List (List rk4_float))) (data : D) (env : σ) (hp : Heap)
    (hzero : ∀ xdot tl xa ua pa d e i, i < o.f_size → (o.f xdot tl xa ua pa d e).1.getD i 0 = 0)
    (hok : (rk4 (some o) (some xpb) t (some xb) u p data env hp).status = RK4_SUCCESS)
    (hlen : o.f_size ≤ xpb.length) :
    ∃ out, (rk4 (some o) (some xpb) t (some xb) u p data env hp).xp = some out ∧
      ∀ i, i < o.f_size → out[i]? = some (xb.getD i 0) := by
  refine ⟨_, (rk4_success_outcome o xpb t xb u p data env hp hok).1, fun i hi => ?_⟩
  have hk := rk4_stages_zero_entry o i (fun xdot tl xa ua pa d e _ => hzero xdot tl xa ua pa d e i hi)
    t xb u p data env
  rw [rk4_output_getElem?, if_pos ⟨hi, Nat.lt_of_lt_of_le hi hlen⟩, rk4_df_eq, hk 0, hk 1, hk 2,
    hk 3]
  simp

/-- C12 at the scalar field `xdot[0] = 0 * x[0]` with `h = 1` and `x = [3]`. -/
theorem rk4_zero_field_witness :
    ∃ out, (rk4 (some ⟨1, 1, linear_ode 0⟩) (some [5]) 2 (some [3]) (some [4]) none () ()
        ⟨[], []⟩).xp = some out ∧
      ∀ i, i < 1 → out[i]? = some (([3] : List rk4_float).getD i 0) :=
  rk4_zero_field ⟨1, 1, linear_ode 0⟩ [5] 2 [3] (some [4]) none () () ⟨[], []⟩
    (by
      intro xdot tl xa ua pa d e i hi
      have h0 : i = 0 := by
        have : i < 1 := hi
        omega
      subst h0
      cases xdot <;> simp [linear_ode])
    (by decide) (by decide)

/-- C13: `rk4` called with one buffer for `xp` and for `x` (every entry
updated in place, in index order) leaves that buffer, the value returned, the
call log, the state of the callback and the heap exactly as a call with a
separate output buffer that starts as a copy of `x`; and against a call with
any separate output buffer, the value returned and the invocations of the
vector field are the same and, on success, so is every entry below `f_size`
that both buffers have. -/
theorem rk4_aliasing {σ D : Type} (o : rk4_opts σ D) (buf : List rk4_float) (t : rk4_float)
    (u : Option (List rk4_float)) (p : Option (List (List rk4_float))) (data : D) (env : σ)
    (hp : Heap) :
    rk4_inplace (some o) (some buf) t u p data env hp =
        rk4 (some o) (some buf) t (some buf) u p data env hp ∧
      ∀ xpb : List rk4_float,
        (rk4 (some o) (some xpb) t (some buf) u p data env hp).status =
            (rk4_inplace (some o) (some buf) t u p data env hp).status ∧
          (rk4 (some o) (some xpb) t (some buf) u p data env hp).calls =
            (rk4_inplace (some o) (some buf) t u p data env hp).calls ∧
          ((rk4_inplace (some o) (some buf) t u p data env hp).status = RK4_SUCCESS →
            ∃ out outp, (rk4 (some o) (some xpb) t (some buf) u p data env hp).xp = some out ∧
              (rk4_inplace (some o) (some buf) t u p data env hp).xp = some outp ∧
              ∀ i, i < o.f_size → i < xpb.length → i < buf.length → outp[i]? = out[i]?) := by
  refine ⟨rk4_inplace_eq _ _ _ _ _ _ _ _, fun xpb => ?_⟩
  rw [rk4_inplace_eq]
  have hst : (rk4 (some o) (some xpb) t (some buf) u p data env hp).status =
      (rk4 (some o) (some buf) t (some buf) u p data env hp).status := by
    rw [rk4_status_eq, rk4_status_eq]
    simp
  refine ⟨hst, ?_, fun hok => ?_⟩
  · by_cases hok : (rk4 (some o) (some buf) t (some buf) u p data env hp).status = RK4_SUCCESS
    · rw [(rk4_success_outcome o buf t buf u p data env hp hok).2.1,
        (rk4_success_outcome o xpb t buf u p data env hp (hst.trans hok)).2.1]
    · have hok1 : (rk4 (some o) (some xpb) t (some buf) u p data env hp).status ≠ RK4_SUCCESS := by
        rw [hst]; exact hok
      rw [(rk4_failure_frame _ _ _ _ _ _ _ _ _ hok).1, (rk4_failure_frame _ _ _ _ _ _ _ _ _ hok1).1]
  · refine ⟨_, _, (rk4_success_outcome o xpb t buf u p data env hp (hst.trans hok)).1,
      (rk4_success_outcome o buf t buf u p data env hp hok).1, fun i hi h1 h2 => ?_⟩
    rw [rk4_output_getElem?, rk4_output_getElem?, if_pos ⟨hi, h2⟩, if_pos ⟨hi, h1⟩]

/-- C13 at the scalar field `xdot[0] = x[0]`, `h = 1`, buffer `[1]`, against a
separate output buffer `[0]`. -/
theorem rk4_aliasing_witness :
    ∃ out outp, (rk4 (some ⟨1, 1, linear_ode 1⟩) (some [0]) 0 (some [1]) none none () ()
        ⟨[], []⟩).xp = some out ∧
      (rk4_inplace (some ⟨1, 1, linear_ode 1⟩) (some [1]) 0 none none () () ⟨[], []⟩).xp
        = some outp ∧
      ∀ i, i < 1 → i < ([0] : List rk4_float).length → i < ([1] : List rk4_float).length →
        outp[i]? = out[i]? :=
  ((rk4_aliasing ⟨1, 1, linear_ode 1⟩ [1] 0 none none () () ⟨[], []⟩).2 [0]).2.2 (by decide)

/-- C14: on a successful call of `rk4` the live blocks on return are the live
blocks before the call.  The six blocks acquired (the stage table `kt`, the
stage buffers `k0 .. k3`, the scratch vector `z`) are new, pairwise distinct
and live together after the last acquisition, and the heap on return is that
heap after six calls of `free`, one for each of the six blocks. -/
theorem rk4_temporaries_released {σ D : Type} (o : rk4_opts σ D) (xpb : List rk4_float)
    (t : rk4_float) (xb : List rk4_float) (u : Option (List rk4_float))
    (p : Option (List (List rk4_float))) (data : D) (env : σ) (hp : Heap)
    (hok : (rk4 (some o) (some xpb) t (some xb) u p data env hp).status = RK4_SUCCESS) :
    (rk4 (some o) (some xpb) t (some xb) u p data env hp).heap.live = hp.live ∧
      ∃ kt k0 k1 k2 k3 z : Nat, [kt, k0, k1, k2, k3, z].Nodup ∧
        (∀ a, a ∈ [kt, k0, k1, k2, k3, z] → a ≠ 0 ∧ a ∉ hp.live) ∧
        (rk4 (some o) (some xpb) t (some xb) u p data env hp).heap =
          free z (free kt (free k3 (free k2 (free k1 (free k0
            ⟨z :: k3 :: k2 :: k1 :: k0 :: kt :: hp.live,
              hp.oracle.drop (RK4_ORDER + 2)⟩))))) := by
  obtain ⟨ks, hp1, h0, hr, hz, hheap⟩ := rk4_success_heap o xpb t xb u p data env hp hok
  obtain ⟨hlive, hnd, hlen, hfresh, hl2⟩ := rk4_skeleton_live hp ks hp1 h0 hr hz
  refine ⟨by rw [hheap]; exact hlive, ?_⟩
  have hor : (malloc hp1).2.oracle = hp.oracle.drop (RK4_ORDER + 2) := by
    have h1 := rk4_alloc_k_oracle _ _ _ _ _ hr
    simp only at h1
    rw [malloc_oracle, h1, malloc_oracle]
    simp [RK4_ORDER, List.tail_drop]
  have hks : ks.length = 4 := by
    simp [RK4_ORDER] at hlen
    omega
  match ks, hks with
  | [k0, k1, k2, k3], _ =>
    refine ⟨(malloc hp).1, k0, k1, k2, k3, (malloc hp1).1, ?_, ?_, ?_⟩
    · simpa using hnd
    · intro a ha
      exact hfresh a (by simpa using ha)
    · have heta : (malloc hp1).2 = ⟨(malloc hp1).2.live, (malloc hp1).2.oracle⟩ := rfl
      rw [hheap, heta, hor, hl2]
      rfl

/-- C14 at a successful call on a heap with the blocks `3` and `7` live. -/
theorem rk4_temporaries_released_witness :
    (rk4 (some ⟨1, 1, linear_ode 1⟩) (some [0]) 0 (some [1]) none none () ()
        ⟨[3, 7], []⟩).heap.live = [3, 7] :=
  (rk4_temporaries_released ⟨1, 1, linear_ode 1⟩ [0] 0 [1] none none () () ⟨[3, 7], []⟩
    (by decide)).1

/-- C15, evaluated on the code.  The oscillator of test_ode_2.c (`k = 1`,
`c = 1/2`, `g = 1`, `h = 1/1000`).  While `u = 0` a step from `(0, 0)` returns
`(0, 0)`, so the state at the onset of the step input is `(0, 0)`.  There, with
`u = 1`, `rk4` returns `(11999/48000000000, 31995999/32000000000)` and the
classical step returns `(47991997/96000000000000, 191951976007/192000000000000)`:
the two differ by more than `1/1000000000` in each component. -/
theorem rk4_oscillator_step_onset :
    (∀ t : rk4_float, (rk4 (some ⟨1 / 1000, 2, oscillator_ode⟩) (some [0, 0]) t (some [0, 0])
        (some [0]) (some [[1, 1 / 2], [1]]) () () ⟨[], []⟩).xp = some [0, 0]) ∧
      (rk4 (some ⟨1 / 1000, 2, oscillator_ode⟩) (some [0, 0]) 1 (some [0, 0])
        (some [1]) (some [[1, 1 / 2], [1]]) () () ⟨[], []⟩).status = RK4_SUCCESS ∧
      (rk4 (some ⟨1 / 1000, 2, oscillator_ode⟩) (some [0, 0]) 1 (some [0, 0])
        (some [1]) (some [[1, 1 / 2], [1]]) () () ⟨[], []⟩).xp =
          some [11999 / 48000000000, 31995999 / 32000000000] ∧
      rk4_reference_step (1 / 1000) 2
        (fun tl xa => (oscillator_ode [0, 0] tl xa (some [1]) (some [[1, 1 / 2], [1]]) () ()).1)
        1 [0, 0] = [47991997 / 96000000000000, 191951976007 / 192000000000000] ∧
      (1 / 1000000000 : rk4_float) < 47991997 / 96000000000000 - 11999 / 48000000000 ∧
      (1 / 1000000000 : rk4_float) < 31995999 / 32000000000 - 191951976007 / 192000000000000 := by
  refine ⟨?_, by decide, ?_, ?_, by norm_num, by norm_num⟩
  · intro t
    norm_num [rk4, malloc, fresh, free, rk4_alloc_k, rk4_free_k, RK4_ORDER, List.range_succ,
      List.range', rk4_stages, invoke, rk4_f_loop, rk4_z_loop, oscillator_ode, rk4_a, rk4_c,
      rk4_output, rk4_df, rk4_b]
  · norm_num [rk4, malloc, fresh, free, rk4_alloc_k, rk4_free_k, RK4_ORDER, List.range_succ,
      List.range', rk4_stages, invoke, rk4_f_loop, rk4_z_loop, oscillator_ode, rk4_a, rk4_c,
      rk4_output, rk4_df, rk4_b]
  · norm_num [rk4_reference_step, oscillator_ode, List.range_succ]

/-- C16: for a vector field that keeps the length of `xdot` and whose result
on a buffer of `f_size` entries depends on `t`, `x`, `u`, `p` and `data` only
(it overwrites every entry and reads no other state), `rk4` returns the same
value and leaves the same `xp` as the variant that invokes the vector field
once for each stage, in every dimension. -/
theorem rk4_repeated_evaluations {σ D : Type} (o : rk4_opts σ D) (xpb : List rk4_float)
    (t : rk4_float) (xb : List rk4_float) (u : Option (List rk4_float))
    (p : Option (List (List rk4_float))) (data : D) (env : σ) (hp : Heap)
    (hlen : ∀ xdot tl xa ua pa d e, (o.f xdot tl xa ua pa d e).1.length = xdot.length)
    (hpure : ∀ xdot xdot1 tl xa ua pa d e e1, xdot.length = o.f_size →
      xdot1.length = o.f_size →
      (o.f xdot tl xa ua pa d e).1 = (o.f xdot1 tl xa ua pa d e1).1) :
    (rk4 (some o) (some xpb) t (some xb) u p data env hp).status =
        (rk4_once (some o) (some xpb) t (some xb) u p data env hp).status ∧
      (rk4 (some o) (some xpb) t (some xb) u p data env hp).xp =
        (rk4_once (some o) (some xpb) t (some xb) u p data env hp).xp := by
  obtain ⟨hs, -, hx⟩ := rk4_once_outcome o xpb t xb u p data env hp
  refine ⟨hs.symm, (hx ?_).symm⟩
  by_cases hn : o.f_size = 0
  · unfold rk4_output
    rw [hn]
    rfl
  · rw [rk4_stages_once_k o hn hlen hpure]

/-- C16 at the call of test_ode_3.c (`f_size = 3`, `h = 1e-5`, `x = [1, 2, 3]`):
`rk4` invokes the vector field ten times, the variant four times, and the two
return the same value and leave the same `xp`. -/
theorem rk4_repeated_evaluations_witness :
    (rk4 (some ⟨1 / 100000, 3, riccati_ode⟩) (some [0, 0, 0]) (1 / 100000) (some [1, 2, 3])
        none none () () ⟨[], []⟩).calls.length = 10 ∧
      (rk4_once (some ⟨1 / 100000, 3, riccati_ode⟩) (some [0, 0, 0]) (1 / 100000)
        (some [1, 2, 3]) none none () () ⟨[], []⟩).calls.length = 4 ∧
      (rk4 (some ⟨1 / 100000, 3, riccati_ode⟩) (some [0, 0, 0]) (1 / 100000) (some [1, 2, 3])
        none none () () ⟨[], []⟩).status =
        (rk4_once (some ⟨1 / 100000, 3, riccati_ode⟩) (some [0, 0, 0]) (1 / 100000)
          (some [1, 2, 3]) none none () () ⟨[], []⟩).status ∧
      (rk4 (some ⟨1 / 100000, 3, riccati_ode⟩) (some [0, 0, 0]) (1 / 100000) (some [1, 2, 3])
        none none () () ⟨[], []⟩).xp =
        (rk4_once (some ⟨1 / 100000, 3, riccati_ode⟩) (some [0, 0, 0]) (1 / 100000)
          (some [1, 2, 3]) none none () () ⟨[], []⟩).xp :=
  ⟨by decide, by decide,
    rk4_repeated_evaluations ⟨1 / 100000, 3, riccati_ode⟩ [0, 0, 0] (1 / 100000) [1, 2, 3]
      none none () () ⟨[], []⟩
      (by intro xdot tl xa ua pa d e; simp [riccati_ode, List.range_succ])
      (by
        intro xdot xdot1 tl xa ua pa d e e1 h1 h2
        match xdot, xdot1, h1, h2 with
        | [a0, a1, a2], [b0, b1, b2], _, _ => simp [riccati_ode, List.range_succ])⟩

/-- C17: on a successful call of `rk4`, `xp` keeps its length and its entries
at the indices from `f_size` on; the entries below `f_size` are the same
whatever the output buffer held before the call; and every invocation of the
vector field has seen the `u` and `p` of the caller, the first one the `x` of
the caller. -/
theorem rk4_output_frame {σ D : Type} (o : rk4_opts σ D) (xpb : List rk4_float)
    (t : rk4_float) (xb : List rk4_float) (u : Option (List rk4_float))
    (p : Option (List (List rk4_float))) (data : D) (env : σ) (hp : Heap)
    (hok : (rk4 (some o) (some xpb) t (some xb) u p data env hp).status = RK4_SUCCESS) :
    ∃ out, (rk4 (some o) (some xpb) t (some xb) u p data env hp).xp = some out ∧
      out.length = xpb.length ∧
      (∀ i, o.f_size ≤ i → out[i]? = xpb[i]?) ∧
      (∀ xpb1 : List rk4_float, ∃ out1,
        (rk4 (some o) (some xpb1) t (some xb) u p data env hp).xp = some out1 ∧
          ∀ i, i < o.f_size → i < xpb.length → i < xpb1.length → out1[i]? = out[i]?) ∧
      (∀ c, c ∈ (rk4 (some o) (some xpb) t (some xb) u p data env hp).calls →
        c.u = u ∧ c.p = p ∧ (c.stage = 0 → c.x = xb)) := by
  refine ⟨_, (rk4_success_outcome o xpb t xb u p data env hp hok).1, rk4_output_length _ _ _ _,
    fun i hi => ?_, fun xpb1 => ?_, ?_⟩
  · rw [rk4_output_getElem?, if_neg (fun h => absurd h.1 (Nat.not_lt.2 hi))]
  · have hok1 : (rk4 (some o) (some xpb1) t (some xb) u p data env hp).status = RK4_SUCCESS := by
      rw [← hok, rk4_status_eq, rk4_status_eq]
      simp
    refine ⟨_, (rk4_success_outcome o xpb1 t xb u p data env hp hok1).1, fun i hi h1 h2 => ?_⟩
    rw [rk4_output_getElem?, rk4_output_getElem?, if_pos ⟨hi, h2⟩, if_pos ⟨hi, h1⟩]
  · rw [(rk4_success_outcome o xpb t xb u p data env hp hok).2.1]
    obtain ⟨z1, z2, z3, hc⟩ := rk4_stages_calls o t xb u p data env
    rw [hc]
    intro c hc
    simp only [List.mem_cons, List.mem_append, List.mem_replicate] at hc
    rcases hc with rfl | ⟨-, rfl⟩ | ⟨-, rfl⟩ | ⟨-, rfl⟩
    · exact ⟨rfl, rfl, fun _ => rfl⟩
    · exact ⟨rfl, rfl, fun h => absurd h (by simp)⟩
    · exact ⟨rfl, rfl, fun h => absurd h (by simp)⟩
    · exact ⟨rfl, rfl, fun h => absurd h (by simp)⟩

/-- C17 at the scalar field `xdot[0] = x[0]` with an output buffer of three
entries. -/
theorem rk4_output_frame_witness :
    ∃ out, (rk4 (some ⟨1, 1, linear_ode 1⟩) (some [5, 6, 7]) 0 (some [1]) none none () ()
        ⟨[], []⟩).xp = some out ∧
      out.length = ([5, 6, 7] : List rk4_float).length ∧
      (∀ i, 1 ≤ i → out[i]? = ([5, 6, 7] : List rk4_float)[i]?) ∧
      (∀ xpb1 : List rk4_float, ∃ out1,
        (rk4 (some ⟨1, 1, linear_ode 1⟩) (some xpb1) 0 (some [1]) none none () ()
            ⟨[], []⟩).xp = some out1 ∧
          ∀ i, i < 1 → i < ([5, 6, 7] : List rk4_float).length → i < xpb1.length →
            out1[i]? = out[i]?) ∧
      (∀ c, c ∈ (rk4 (some ⟨1, 1, linear_ode 1⟩) (some [5, 6, 7]) 0 (some [1]) none none () ()
          ⟨[], []⟩).calls →
        c.u = none ∧ c.p = none ∧ (c.stage = 0 → c.x = [1])) :=
  rk4_output_frame ⟨1, 1, linear_ode 1⟩ [5, 6, 7] 0 [1] none none () () ⟨[], []⟩ (by decide)

/-- C18: the stage buffers come zeroed from `calloc` at every call.  For an
index `i` whose entry of `xdot` the vector field never changes, the entry `i`
of each of the four stage buffers is `0` at the end of the stage computation,
a successful call of `rk4` leaves `x[i]` in `xp[i]`, and `xp` is the same on
every heap on which the call succeeds. -/
theorem rk4_unwritten_index {σ D : Type} (o : rk4_opts σ D) (xpb : List rk4_float)
    (t : rk4_float) (xb : List rk4_float) (u : Option (List rk4_float))
    (p : Option (List (List rk4_float))) (data : D) (env : σ) (hp : Heap) (i : Nat)
    (hkeep : ∀ xdot tl xa ua pa d e, (o.f xdot tl xa ua pa d e).1.getD i 0 = xdot.getD i 0)
    (hok : (rk4 (some o) (some xpb) t (some xb) u p data env hp).status = RK4_SUCCESS)
    (hi : i < o.f_size) (hlen : i < xpb.length) :
    (∀ m, ((rk4_stages o t xb u p data env).k.getD m []).getD i 0 = 0) ∧
      (∃ out, (rk4 (some o) (some xpb) t (some xb) u p data env hp).xp = some out ∧
        out[i]? = some (xb.getD i 0)) ∧
      ∀ hp1 : Heap,
        (rk4 (some o) (some xpb) t (some xb) u p data env hp1).status = RK4_SUCCESS →
          (rk4 (some o) (some xpb) t (some xb) u p data env hp1).xp =
            (rk4 (some o) (some xpb) t (some xb) u p data env hp).xp := by
  have hk := rk4_stages_zero_entry o i
    (fun xdot tl xa ua pa d e h0 => (hkeep xdot tl xa ua pa d e).trans h0) t xb u p data env
  refine ⟨hk, ⟨_, (rk4_success_outcome o xpb t xb u p data env hp hok).1, ?_⟩, fun hp1 hok1 => ?_⟩
  · rw [rk4_output_getElem?, if_pos ⟨hi, hlen⟩, rk4_df_eq, hk 0, hk 1, hk 2, hk 3]
    simp
  · rw [(rk4_success_outcome o xpb t xb u p data env hp hok).1,
      (rk4_success_outcome o xpb t xb u p data env hp1 hok1).1]

/-- C18 at the field `xdot[0] = x[0]` run in dimension 2: the entry `1` of
`xdot` is never written. -/
theorem rk4_unwritten_index_witness :
    ∃ out, (rk4 (some ⟨1, 2, linear_ode 1⟩) (some [5, 6]) 0 (some [1, 7]) none none () ()
        ⟨[], []⟩).xp = some out ∧ out[1]? = some (([1, 7] : List rk4_float).getD 1 0) :=
  (rk4_unwritten_index ⟨1, 2, linear_ode 1⟩ [5, 6] 0 [1, 7] none none () () ⟨[], []⟩ 1
    (by intro xdot tl xa ua pa d e; simp [linear_ode, List.getElem?_set])
    (by decide) (by decide) (by decide)).2.1

end Rk4
